import Mathlib

/-!
Verification of the KK-Bessel solver (`src/solvers/bessel.py`).

Shallow embedding conventions:
* Python floats are idealized as exact rationals (`ℚ`); every numeric literal of
  the source (`0.2`, `1.25`, `1e-12`, ...) is carried over as the exact rational
  it denotes, and `math.pi` is carried over as the exact value of the IEEE double
  nearest to pi.
* The SciPy externals (`scipy.special.jv`, `scipy.special.yv`,
  `scipy.special.jn_zeros`, `scipy.optimize.brentq`) are not code of this
  repository; they enter the embedding as function parameters.  `brentq`'s
  documented behaviour (it either raises, or returns a point of the supplied
  interval within `xtol + rtol*|x0|` of a true zero `x0` of the function in that
  interval) is captured by the predicate `BrentqSpec` and is assumed as a
  hypothesis where a theorem needs it.
* Python exceptions are modelled with `Except PyErr`; `PyErr` distinguishes
  `ValueError` (the only class caught by the source's `try/except`) from every
  other exception class (`KeyError`, `RuntimeError`, ...).
* `warnings.warn` is a non-fatal diagnostic; it is modelled by the `warnings`
  field of the returned record.
* NumPy's `np.nan` (used for degenerate mixing coefficients) is modelled by
  `Option ℚ` with `none` standing for NaN.
-/

/-- Python exception classes relevant to the solver: the source catches exactly
`ValueError`; everything else (`KeyError`, `RuntimeError`, ...) is `otherError`. -/
inductive PyErr where
  | valueError (msg : String)
  | otherError (msg : String)
deriving DecidableEq

/-- Whether an embedded Python computation raised (any exception). -/
def failed {α : Type} : Except PyErr α → Bool
  | .error _ => true
  | .ok _ => false

/-- Source constant `_TINY = 1e-14` (declared in the source; not used by the
solver paths under verification). -/
def TINY : ℚ := 1 / 10 ^ 14

/-- Source constant `_MIN_X = 1e-12`. -/
def MIN_X : ℚ := 1 / 10 ^ 12

/-- Source constants `DEFAULT_N_ROOTS`, `DEFAULT_TOL`, `DEFAULT_EXACT`. -/
def DEFAULT_N_ROOTS : ℕ := 3

/-- Source constant `DEFAULT_TOL = 1e-12`. -/
def DEFAULT_TOL : ℚ := 1 / 10 ^ 12

/-- Source constant `DEFAULT_EXACT = True`. -/
def DEFAULT_EXACT : Bool := true

/-- The exact value of the IEEE-754 double `math.pi` used by the source's seed
formula and scan step. -/
def pi_float : ℚ := 884279719003555 / 281474976710656

/-- NumPy `np.sign` on a real scalar. -/
def npSign (x : ℚ) : ℚ := if x < 0 then -1 else if x = 0 then 0 else 1

/-- Python-dict lookup on the association-list model of a dict. -/
def dlookup : List (String × ℚ) → String → Option ℚ
  | [], _ => none
  | (k, v) :: rest, key => if k = key then some v else dlookup rest key

/-- Python `geometry[key]` item access: `KeyError` when absent (a `KeyError` is
not a `ValueError`). -/
def dictGet (g : List (String × ℚ)) (k : String) : Except PyErr ℚ :=
  match dlookup g k with
  | some v => .ok v
  | none => .error (.otherError ("KeyError: " ++ k))

/-- The three required geometry keys of `_validate_geometry`. -/
def requiredKeys : List String := ["Lambda_IR", "z_v", "epsilon"]

/-- The list `missing = [k for k in required if k not in g]` of
`_validate_geometry`. -/
def missingKeys (g : List (String × ℚ)) : List String :=
  requiredKeys.filter (fun k => (dlookup g k).isNone)

/-- Python `repr` of a list of strings, as interpolated by the f-string of
`_validate_geometry`'s error message. -/
def pyListRepr (l : List String) : String :=
  "[" ++ String.intercalate ", " (l.map (fun s => "\x27" ++ s ++ "\x27")) ++ "]"

/-- The message of the `ValueError` raised by `_validate_geometry`. -/
def geoMissingMsg (missing : List String) : String :=
  "Geometry dict missing required keys: " ++ pyListRepr missing ++ ". "

/-- Source `_validate_geometry`: copy the dict (the embedding is pure, so the
returned value carries exactly the caller's entries), raise a single
`ValueError` listing every missing required key, and otherwise return the
entries unchanged. -/
def validate_geometry (geo : List (String × ℚ)) : Except PyErr (List (String × ℚ)) :=
  match missingKeys geo with
  | [] => .ok geo
  | _ :: _ => .error (.valueError (geoMissingMsg (missingKeys geo)))

/-- Source `_nu_for`: Bessel order selection per (species, bc, c). -/
def nu_for (species bc : String) (c : Option ℚ) : Except PyErr (ℚ × String) :=
  if species = "gauge" then
    if bc ≠ "NN" then
      .error (.valueError ("Gauge species requires bc=\x27NN\x27. Got \x27" ++ bc ++ "\x27."))
    else
      .ok (0, "nu=0 (gauge, NN)")
  else if species = "fermion" then
    match c with
    | none => .error (.valueError "Fermion requires bulk mass parameter c.")
    | some cv =>
      let alpha := |cv + 1/2|
      if bc = "++" then
        -- Do not clamp to 0. Negative orders are valid (e.g. c < 0.5)
        .ok (alpha - 1, "nu=alpha-1 (fermion, ++)")
      else if bc = "--" then
        .ok (alpha, "nu=alpha (fermion, --)")
      else
        .error (.valueError ("Fermion bc must be \x27++\x27 or \x27--\x27. Got \x27" ++ bc ++ "\x27."))
  else
    .error (.valueError ("Species must be \x27gauge\x27 or \x27fermion\x27. Got \x27" ++ species ++ "\x27."))

/-- Source `_F_exact`: the stabilized cross-product quantization function,
parameterized by the library Bessel functions `jv`, `yv`. -/
def F_exact (jv yv : ℚ → ℚ → ℚ) (nu eps : ℚ) : ℚ → ℚ := fun x =>
  if x ≤ MIN_X then npSign x * 1  -- avoid evaluating at 0
  else jv nu x * yv nu (eps * x) - jv nu (eps * x) * yv nu x

/-- Source `_F_ironly`: the IR-only approximation `J_nu(x)`. -/
def F_ironly (jv : ℚ → ℚ → ℚ) (nu : ℚ) : ℚ → ℚ := fun x =>
  if x ≤ MIN_X then 1 else jv nu x

/-- Source `_approx_jv_zeros`: integer-order zeros from the library table
(`jn_zeros`, a parameter of the embedding, called on `|nu_int|`), otherwise the
asymptotic seeds `(n + nu/2 - 1/4)*pi` for `n = 1..n_roots`. -/
def approx_jv_zeros (jn_zeros : ℕ → ℕ → List ℚ) (nu : ℚ) (n_roots : ℕ) : List ℚ :=
  if |nu - ((round nu : ℤ) : ℚ)| < 1 / 10 ^ 12 then
    -- exact integer (use abs because jn_zeros requires n >= 0)
    jn_zeros (round nu).natAbs n_roots
  else
    (List.range n_roots).map (fun i : ℕ => (((i : ℚ) + 1) + (1/2) * nu - 1/4) * pi_float)

/-- The `for _ in range(max_expand)` loop of `_bracket_around`: shrink the lower
end by 0.8 (floored at `_MIN_X`), grow the upper end by 1.25, and stop at the
first sign change. -/
def expandLoop (F : ℚ → ℚ) : ℕ → ℚ → ℚ → Option (ℚ × ℚ)
  | 0, _, _ => none
  | k + 1, a, b =>
    let a2 := max (a * (4/5)) MIN_X
    let b2 := b * (5/4)
    if npSign (F a2) ≠ npSign (F b2) then some (a2, b2)
    else expandLoop F k a2 b2

/-- Source `_bracket_around`: symmetric interval around the seed, tight
straddling bracket when an endpoint evaluates exactly to zero, immediate accept
on a sign difference, multiplicative expansion otherwise. -/
def bracket_around (F : ℚ → ℚ) (x0 rel : ℚ) (max_expand : ℕ) : Option (ℚ × ℚ) :=
  let a := max (x0 * (1 - rel)) MIN_X
  let b := x0 * (1 + rel)
  let fa := F a
  let fb := F b
  if npSign fa = 0 then some (max (a * (9/10)) MIN_X, a * (11/10))
  else if npSign fb = 0 then some (max (b * (9/10)) MIN_X, b * (11/10))
  else if npSign fa ≠ npSign fb then some (a, b)
  else expandLoop F max_expand a b

/-- Loop body of `_scan_for_brackets`.  The Python `while` advances `x` by
`step` each pass; the fuel argument is an upper bound on the number of passes,
shown sufficient (so that the fuel-0 branch is never taken when `0 < step`) by
`scan_go_stable`.  At each loop head the source's `x` equals `x_prev`, so a
single position variable suffices. -/
def scan_go (F : ℚ → ℚ) (step x_max : ℚ) (n_needed : ℕ) :
    ℕ → List (ℚ × ℚ) → ℚ → ℚ → List (ℚ × ℚ)
  | 0, acc, _, _ => acc
  | fuel + 1, acc, x_prev, f_prev =>
    if acc.length < n_needed ∧ x_prev < x_max then
      scan_go F step x_max n_needed fuel
        (if npSign f_prev = 0 then
          -- near exact zero, create a small bracket
          acc ++ [(max (x_prev * (9/10)) MIN_X, x_prev * (11/10))]
        else if npSign f_prev ≠ npSign (F (x_prev + step)) then
          acc ++ [(x_prev, x_prev + step)]
        else acc)
        (x_prev + step) (F (x_prev + step))
    else acc

/-- Source `_scan_for_brackets`: linear scan from `max(x_start, _MIN_X)` in
increments of `step` up to `x_max`.  The fuel passed to `scan_go` bounds the
number of `while` passes; for `0 < step` (the solver always passes
`step = pi`) it is sufficient, so the embedding computes exactly the source's
loop (`scan_go_stable`). -/
def scan_for_brackets (F : ℚ → ℚ) (x_start step : ℚ) (n_needed : ℕ) (x_max : ℚ) :
    List (ℚ × ℚ) :=
  let x0 := max x_start MIN_X
  scan_go F step x_max n_needed (Nat.ceil ((x_max - x0) / step) + 1) [] x0 (F x0)

/-- The seed loop of `solve_kk`: try a symmetric bracket around each seed
(`rel=0.2`, `max_expand=30`), stopping once `n_roots` brackets are collected. -/
def seedBrackets (F : ℚ → ℚ) (n_roots : ℕ) : List (ℚ × ℚ) → List ℚ → List (ℚ × ℚ)
  | acc, [] => acc
  | acc, x0 :: rest =>
    if n_roots ≤ acc.length then acc
    else
      match bracket_around F x0 (1/5) 30 with
      | some br => seedBrackets F n_roots (acc ++ [br]) rest
      | none => seedBrackets F n_roots acc rest

/-- The bracket-collection stage of `solve_kk`: seed-based brackets first, then
the fallback linear scan (step `pi`, started at the last seed or `0.5`) when the
seeds under-deliver. -/
def bracketStage (F : ℚ → ℚ) (jn_zeros : ℕ → ℕ → List ℚ) (nu : ℚ) (n_roots : ℕ)
    (x_max : ℚ) : List (ℚ × ℚ) :=
  let seeds := approx_jv_zeros jn_zeros nu (max n_roots 5)
  let brs := seedBrackets F n_roots [] seeds
  if brs.length < n_roots then
    brs ++ scan_for_brackets F (seeds.getLastD (1/2)) pi_float (n_roots - brs.length) x_max
  else brs

/-- The warning text of `solve_kk`'s shortfall diagnostic. -/
def shortfallMsg (found : ℕ) (x_max : ℚ) : String :=
  "Only found " ++ toString found ++ " sign-change brackets up to x=" ++ toString x_max ++
    ". Returning fewer roots."

/-- One bracket of `solve_kk`'s refinement loop: `brentq(F, a, b, xtol=tol,
rtol=tol, maxiter=200)`, and on a `ValueError` (the only class the source
catches) one retry with the ends nudged outward by 1% (`max(a*0.99, _MIN_X)`,
`b*1.01`), again with `maxiter=200`.  Any other exception, and any exception of
the retry, propagates. -/
def solveBracket (brentq : (ℚ → ℚ) → ℚ → ℚ → ℚ → ℚ → ℕ → Except PyErr ℚ)
    (F : ℚ → ℚ) (tol : ℚ) (ab : ℚ × ℚ) : Except PyErr ℚ :=
  match brentq F ab.1 ab.2 tol tol 200 with
  | .ok root => .ok root
  | .error (.valueError _) =>
    -- Failsafe: nudge ends slightly and retry once
    brentq F (max (ab.1 * (99/100)) MIN_X) (ab.2 * (101/100)) tol tol 200
  | .error e => .error e

/-- The refinement loop of `solve_kk` over the accepted brackets; the first
uncaught exception aborts the call, as in the source. -/
def solveAll (brentq : (ℚ → ℚ) → ℚ → ℚ → ℚ → ℚ → ℕ → Except PyErr ℚ)
    (F : ℚ → ℚ) (tol : ℚ) : List (ℚ × ℚ) → Except PyErr (List ℚ)
  | [] => .ok []
  | br :: rest =>
    match solveBracket brentq F tol br with
    | .error e => .error e
    | .ok r =>
      match solveAll brentq F tol rest with
      | .error e => .error e
      | .ok rs => .ok (r :: rs)

/-- The per-mode mixing coefficient `b_n` of `solve_kk` (IR ratio in exact mode,
UV ratio in IR-only mode); `none` models the `np.nan` reported when the
denominator magnitude is below `1e-300`. -/
def bCoeff (jv yv : ℚ → ℚ → ℚ) (nu eps : ℚ) (exact : Bool) (x : ℚ) : Option ℚ :=
  if exact then
    let denom := yv nu x
    if |denom| < 1 / 10 ^ 300 then none else some (-(jv nu x) / denom)
  else
    let xp := eps * x
    let denom := yv nu xp
    if |denom| < 1 / 10 ^ 300 then none else some (-(jv nu xp) / denom)

/-- The `labels` metadata dict of `solve_kk`'s `extras`. -/
structure Labels where
  nu_label : String
  species : String
  bc : String
  exact : Bool
deriving DecidableEq

/-- The full return value of `solve_kk` (`masses` plus the `extras` dict), with
the emitted warnings collected in `warnings`. -/
structure SolveOut where
  masses : List ℚ
  x : List ℚ
  b : List (Option ℚ)
  nu : ℚ
  labels : Labels
  geometry : List (String × ℚ)
  warnings : List String
deriving DecidableEq

/-- The source line `F = _F_exact(nu, eps) if exact else _F_ironly(nu)`: the
quantization function selected by the `exact` flag. -/
def Fsel (jv yv : ℚ → ℚ → ℚ) (nu eps : ℚ) (exact : Bool) : ℚ → ℚ :=
  if exact then F_exact jv yv nu eps else F_ironly jv nu

/-- The geometry-independent core of `solve_kk`: build `F`, collect brackets,
emit the shortfall warning and truncate the request when the brackets
under-deliver, and refine each remaining bracket.  Depends on the geometry only
through `eps`. -/
def solve_core (jv yv : ℚ → ℚ → ℚ) (jn_zeros : ℕ → ℕ → List ℚ)
    (brentq : (ℚ → ℚ) → ℚ → ℚ → ℚ → ℚ → ℕ → Except PyErr ℚ)
    (nu eps : ℚ) (n_roots : ℕ) (exact : Bool) (tol x_max : ℚ) :
    Except PyErr (List ℚ × List String) :=
  let ftarget := Fsel jv yv nu eps exact
  let brackets := bracketStage ftarget jn_zeros nu n_roots x_max
  let warns := if brackets.length < n_roots then [shortfallMsg brackets.length x_max] else []
  let n_roots2 := if brackets.length < n_roots then brackets.length else n_roots
  match solveAll brentq ftarget tol (brackets.take n_roots2) with
  | .error e => .error e
  | .ok xs => .ok (xs, warns)

/-- Source `solve_kk`: validate the geometry, read `z_v`, `epsilon`,
`Lambda_IR`, select the order, find and refine the roots, map them to masses
`x * Lambda_IR`, and assemble the extras. -/
def solve_kk (jv yv : ℚ → ℚ → ℚ) (jn_zeros : ℕ → ℕ → List ℚ)
    (brentq : (ℚ → ℚ) → ℚ → ℚ → ℚ → ℚ → ℕ → Except PyErr ℚ)
    (species bc : String) (geometry : List (String × ℚ)) (c : Option ℚ)
    (n_roots : ℕ) (exact : Bool) (tol x_max : ℚ) : Except PyErr SolveOut :=
  match validate_geometry geometry with
  | .error e => .error e
  | .ok g =>
    match dictGet g "z_v" with
    | .error e => .error e
    | .ok _z_v =>
      match dictGet g "epsilon" with
      | .error e => .error e
      | .ok eps =>
        match dictGet g "Lambda_IR" with
        | .error e => .error e
        | .ok lam =>
          match nu_for species bc c with
          | .error e => .error e
          | .ok (nu, nu_label) =>
            match solve_core jv yv jn_zeros brentq nu eps n_roots exact tol x_max with
            | .error e => .error e
            | .ok (xs, warns) =>
              .ok { masses := xs.map (fun x => x * lam)
                    x := xs
                    b := xs.map (bCoeff jv yv nu eps exact)
                    nu := nu
                    labels := { nu_label := nu_label, species := species, bc := bc, exact := exact }
                    geometry := g
                    warnings := warns }

/-- The documented contract of `scipy.optimize.brentq` for a fixed target
function and tolerances: a returned (non-raising) result lies in the supplied
interval and is within `xtol + rtol*|x0|` of a true zero `x0` of the function
in that interval. -/
def BrentqSpec (brentq : (ℚ → ℚ) → ℚ → ℚ → ℚ → ℚ → ℕ → Except PyErr ℚ)
    (F : ℚ → ℚ) (xtol rtol : ℚ) : Prop :=
  ∀ a b n r, brentq F a b xtol rtol n = .ok r →
    a ≤ r ∧ r ≤ b ∧ ∃ x0, F x0 = 0 ∧ a ≤ x0 ∧ x0 ≤ b ∧ |r - x0| ≤ xtol + rtol * |x0|

/-! ### Helper lemmas -/

theorem npSign_eq_zero_iff {x : ℚ} : npSign x = 0 ↔ x = 0 := by
  unfold npSign
  split_ifs with h1 h2
  · constructor
    · intro h; norm_num at h
    · intro h; exact absurd (h ▸ h1) (lt_irrefl 0)
  · simp [h2]
  · constructor
    · intro h; norm_num at h
    · intro h; exact absurd h h2

theorem MIN_X_pos : (0 : ℚ) < MIN_X := by norm_num [MIN_X]

theorem pi_float_gt_three : (3 : ℚ) < pi_float := by norm_num [pi_float]

/-- A valid bracket in the sense of the (amended) spec: both ends positive and
ordered, and either the recorded endpoint signs differ or the bracket straddles
a sample point at which `F` evaluated exactly to zero. -/
def BracketOK (F : ℚ → ℚ) (br : ℚ × ℚ) : Prop :=
  MIN_X ≤ br.1 ∧ br.1 < br.2 ∧
    (npSign (F br.1) ≠ npSign (F br.2) ∨ ∃ m, br.1 ≤ m ∧ m < br.2 ∧ F m = 0)

theorem expandLoop_lower {F : ℚ → ℚ} :
    ∀ {k : ℕ} {a b a2 b2 : ℚ}, expandLoop F k a b = some (a2, b2) → MIN_X ≤ a2 := by
  intro k
  induction k with
  | zero => intro a b a2 b2 h; simp [expandLoop] at h
  | succ n ih =>
    intro a b a2 b2 h
    rw [expandLoop] at h
    by_cases hs : npSign (F (max (a * (4/5)) MIN_X)) ≠ npSign (F (b * (5/4)))
    · simp only [if_pos hs] at h
      obtain ⟨h1, _⟩ := Prod.mk.injEq .. ▸ (Option.some.injEq .. ▸ h)
      exact h1 ▸ le_max_right _ _
    · simp only [if_neg hs] at h
      exact ih h

theorem expandLoop_spec {F : ℚ → ℚ} :
    ∀ {k : ℕ} {a b a2 b2 : ℚ}, MIN_X ≤ a → a < b →
      expandLoop F k a b = some (a2, b2) →
      MIN_X ≤ a2 ∧ a2 < b2 ∧ npSign (F a2) ≠ npSign (F b2) := by
  intro k
  induction k with
  | zero => intro a b a2 b2 _ _ h; simp [expandLoop] at h
  | succ n ih =>
    intro a b a2 b2 ha hab h
    rw [expandLoop] at h
    have ha2 : MIN_X ≤ max (a * (4/5)) MIN_X := le_max_right _ _
    have hstep : max (a * (4/5)) MIN_X < b * (5/4) := by
      have h0 : (0:ℚ) < a := lt_of_lt_of_le MIN_X_pos ha
      have h1 : a * (4/5) < b * (5/4) := by nlinarith
      have h2 : MIN_X < b * (5/4) := by nlinarith
      exact max_lt h1 h2
    by_cases hs : npSign (F (max (a * (4/5)) MIN_X)) ≠ npSign (F (b * (5/4)))
    · simp only [if_pos hs] at h
      obtain ⟨h1, h2⟩ := Prod.mk.injEq .. ▸ (Option.some.injEq .. ▸ h)
      subst h1; subst h2
      exact ⟨ha2, hstep, hs⟩
    · simp only [if_neg hs] at h
      exact ih ha2 hstep h

theorem bracket_around_lower {F : ℚ → ℚ} {x0 rel : ℚ} {me : ℕ} {a b : ℚ}
    (h : bracket_around F x0 rel me = some (a, b)) : MIN_X ≤ a := by
  simp only [bracket_around] at h
  split_ifs at h with h1 h2 h3
  · obtain ⟨ha, _⟩ := Prod.mk.injEq .. ▸ (Option.some.injEq .. ▸ h)
    exact ha ▸ le_max_right _ _
  · obtain ⟨ha, _⟩ := Prod.mk.injEq .. ▸ (Option.some.injEq .. ▸ h)
    exact ha ▸ le_max_right _ _
  · obtain ⟨ha, _⟩ := Prod.mk.injEq .. ▸ (Option.some.injEq .. ▸ h)
    exact ha ▸ le_max_right _ _
  · exact expandLoop_lower h

theorem bracket_around_spec {F : ℚ → ℚ} {x0 : ℚ} {me : ℕ} {br : ℚ × ℚ}
    (hx0 : (1:ℚ)/2 ≤ x0) (h : bracket_around F x0 (1/5) me = some br) :
    BracketOK F br := by
  obtain ⟨ba, bb⟩ := br
  have hMX : MIN_X < (2:ℚ)/5 := by norm_num [MIN_X]
  have ha : max (x0 * (1 - 1/5)) MIN_X = x0 * (4/5) := by
    have : (2:ℚ)/5 ≤ x0 * (4/5) := by linarith
    rw [show x0 * (1 - 1/5) = x0 * (4/5) by ring]
    exact max_eq_left (le_trans (le_of_lt hMX) this)
  simp only [bracket_around, ha] at h
  split_ifs at h with h1 h2 h3
  · -- F(a) evaluated exactly to zero: bracket straddles a = x0*(4/5)
    obtain ⟨hl, hr⟩ := Prod.mk.injEq .. ▸ (Option.some.injEq .. ▸ h)
    have hFa : F (x0 * (4/5)) = 0 := npSign_eq_zero_iff.mp h1
    have hapos : (2:ℚ)/5 ≤ x0 * (4/5) := by linarith
    refine ⟨hl ▸ le_max_right _ _, ?_, Or.inr ⟨x0 * (4/5), ?_, ?_, hFa⟩⟩
    · rw [← hl, ← hr]
      refine max_lt ?_ ?_
      · nlinarith
      · nlinarith [hMX]
    · rw [← hl]
      refine max_le ?_ ?_
      · nlinarith
      · linarith [hMX]
    · rw [← hr]; nlinarith
  · -- F(b) evaluated exactly to zero: bracket straddles b = x0*(1 + 1/5)
    obtain ⟨hl, hr⟩ := Prod.mk.injEq .. ▸ (Option.some.injEq .. ▸ h)
    have hFb : F (x0 * (1 + 1/5)) = 0 := npSign_eq_zero_iff.mp h2
    have hbpos : (3:ℚ)/5 ≤ x0 * (1 + 1/5) := by linarith
    refine ⟨hl ▸ le_max_right _ _, ?_, Or.inr ⟨x0 * (1 + 1/5), ?_, ?_, hFb⟩⟩
    · rw [← hl, ← hr]
      refine max_lt ?_ ?_
      · nlinarith
      · nlinarith [hMX]
    · rw [← hl]
      refine max_le ?_ ?_
      · nlinarith
      · linarith [hMX]
    · rw [← hr]; nlinarith
  · -- immediate sign change on (a, b)
    obtain ⟨hl, hr⟩ := Prod.mk.injEq .. ▸ (Option.some.injEq .. ▸ h)
    refine ⟨?_, ?_, Or.inl ?_⟩
    · rw [← hl]; linarith [hMX]
    · rw [← hl, ← hr]; nlinarith
    · rw [← hl, ← hr]; exact h3
  · -- expansion loop
    have hab : x0 * (4/5) < x0 * (1 + 1/5) := by nlinarith
    obtain ⟨hlo, hord, hsgn⟩ :=
      expandLoop_spec (le_of_lt (lt_of_lt_of_le hMX (by linarith))) hab h
    exact ⟨hlo, hord, Or.inl hsgn⟩

theorem scan_go_lower {F : ℚ → ℚ} {step x_max : ℚ} {n : ℕ} (hstep : 0 ≤ step) :
    ∀ {fuel : ℕ} {acc : List (ℚ × ℚ)} {x f : ℚ}, MIN_X ≤ x →
      (∀ br ∈ acc, MIN_X ≤ br.1) →
      ∀ br ∈ scan_go F step x_max n fuel acc x f, MIN_X ≤ br.1 := by
  intro fuel
  induction fuel with
  | zero => intro acc x f _ hacc br hbr; exact hacc br hbr
  | succ k ih =>
    intro acc x f hx hacc br hbr
    simp only [scan_go] at hbr
    split_ifs at hbr with hcond hz hs
    · refine ih (by linarith) ?_ br hbr
      intro br2 hbr2
      rcases List.mem_append.mp hbr2 with h | h
      · exact hacc br2 h
      · rw [List.mem_singleton.mp h]; exact le_max_right _ _
    · refine ih (by linarith) ?_ br hbr
      intro br2 hbr2
      rcases List.mem_append.mp hbr2 with h | h
      · exact hacc br2 h
      · rw [List.mem_singleton.mp h]; exact hx
    · exact ih (by linarith) hacc br hbr
    · exact hacc br hbr

theorem scan_go_ok {F : ℚ → ℚ} {step x_max : ℚ} {n : ℕ} (hstep : 0 < step) :
    ∀ {fuel : ℕ} {acc : List (ℚ × ℚ)} {x : ℚ}, MIN_X ≤ x →
      (∀ br ∈ acc, BracketOK F br) →
      ∀ br ∈ scan_go F step x_max n fuel acc x (F x), BracketOK F br := by
  intro fuel
  induction fuel with
  | zero => intro acc x _ hacc br hbr; exact hacc br hbr
  | succ k ih =>
    intro acc x hx hacc br hbr
    simp only [scan_go] at hbr
    split_ifs at hbr with hcond hz hs
    · refine ih (by linarith) ?_ br hbr
      intro br2 hbr2
      rcases List.mem_append.mp hbr2 with h | h
      · exact hacc br2 h
      · rw [List.mem_singleton.mp h]
        have hx0 : (0:ℚ) < x := lt_of_lt_of_le MIN_X_pos hx
        have hFx : F x = 0 := npSign_eq_zero_iff.mp hz
        refine ⟨le_max_right _ _, ?_, Or.inr ⟨x, ?_, ?_, hFx⟩⟩
        · refine max_lt (by nlinarith) (by nlinarith [MIN_X_pos])
        · exact max_le (by nlinarith) hx
        · nlinarith
    · refine ih (by linarith) ?_ br hbr
      intro br2 hbr2
      rcases List.mem_append.mp hbr2 with h | h
      · exact hacc br2 h
      · rw [List.mem_singleton.mp h]
        refine ⟨hx, ?_, Or.inl hs⟩
        show x < x + step
        linarith
    · exact ih (by linarith) hacc br hbr
    · exact hacc br hbr

theorem scan_for_brackets_lower {F : ℚ → ℚ} {x_start step : ℚ} {n : ℕ} {x_max : ℚ}
    (hstep : 0 ≤ step) :
    ∀ br ∈ scan_for_brackets F x_start step n x_max, MIN_X ≤ br.1 := by
  intro br hbr
  exact scan_go_lower hstep (le_max_right _ _) (by intro b h; simp at h) br hbr

theorem scan_for_brackets_ok {F : ℚ → ℚ} {x_start step : ℚ} {n : ℕ} {x_max : ℚ}
    (hstep : 0 < step) :
    ∀ br ∈ scan_for_brackets F x_start step n x_max, BracketOK F br := by
  intro br hbr
  exact scan_go_ok hstep (le_max_right _ _) (by intro b h; simp at h) br hbr

theorem ceil_dec {x x_max step : ℚ} (hstep : 0 < step) (hx : x < x_max) :
    Nat.ceil ((x_max - (x + step)) / step) < Nat.ceil ((x_max - x) / step) := by
  have hq0 : 0 < (x_max - x) / step := div_pos (by linarith) hstep
  have h1 : 0 < Nat.ceil ((x_max - x) / step) := Nat.ceil_pos.mpr hq0
  have heq : (x_max - (x + step)) / step = (x_max - x) / step - 1 := by
    have h2 : x_max - (x + step) = (x_max - x) - step := by ring
    rw [h2, sub_div, div_self (ne_of_gt hstep)]
  have h3 : Nat.ceil ((x_max - x) / step - 1) ≤ Nat.ceil ((x_max - x) / step) - 1 := by
    rw [Nat.ceil_le, Nat.cast_sub (by omega)]
    push_cast
    linarith [Nat.le_ceil ((x_max - x) / step)]
  rw [heq]
  exact lt_of_le_of_lt h3 (Nat.sub_lt h1 one_pos)

/-- Fuel stability for the scan loop: as soon as the fuel exceeds the number of
`while` passes still possible from position `x`, adding more fuel does not
change the result — i.e. the fuel-0 branch of `scan_go` is never taken and the
embedding computes exactly the source's loop. -/
theorem scan_go_stable {F : ℚ → ℚ} {step x_max : ℚ} {n : ℕ} (hstep : 0 < step) :
    ∀ {fuel : ℕ} {acc : List (ℚ × ℚ)} {x f : ℚ},
      Nat.ceil ((x_max - x) / step) < fuel →
      scan_go F step x_max n fuel acc x f = scan_go F step x_max n (fuel + 1) acc x f := by
  intro fuel
  induction fuel with
  | zero => intro acc x f h; exact absurd h (Nat.not_lt_zero _)
  | succ k ih =>
    intro acc x f hfuel
    by_cases hcond : acc.length < n ∧ x < x_max
    · have hlt : Nat.ceil ((x_max - (x + step)) / step) < k := by
        have hd := @ceil_dec x x_max step hstep hcond.2
        omega
      show scan_go F step x_max n (k + 1) acc x f = scan_go F step x_max n (k + 1 + 1) acc x f
      conv_lhs => rw [scan_go]
      conv_rhs => rw [scan_go]
      simp only [if_pos hcond]
      exact ih hlt
    · show scan_go F step x_max n (k + 1) acc x f = scan_go F step x_max n (k + 1 + 1) acc x f
      conv_lhs => rw [scan_go]
      conv_rhs => rw [scan_go]
      simp only [if_neg hcond]

/-- The fuel chosen by `scan_for_brackets` is sufficient: the result is
unchanged under any additional fuel, so the embedding agrees with the
unbounded source loop whenever `0 < step` (the solver always passes
`step = pi`). -/
theorem scan_for_brackets_fuel_sufficient {F : ℚ → ℚ} {x_start step : ℚ} {n : ℕ}
    {x_max : ℚ} (hstep : 0 < step) (j : ℕ) :
    scan_for_brackets F x_start step n x_max =
      scan_go F step x_max n (Nat.ceil ((x_max - max x_start MIN_X) / step) + 1 + j) []
        (max x_start MIN_X) (F (max x_start MIN_X)) := by
  induction j with
  | zero => rfl
  | succ k ihk =>
    rw [ihk]
    exact scan_go_stable hstep (by omega)

theorem nu_for_ge_neg_one {species bc : String} {c : Option ℚ} {nu : ℚ} {lbl : String}
    (h : nu_for species bc c = .ok (nu, lbl)) : -1 ≤ nu := by
  rcases c with _ | cv <;>
    simp only [nu_for] at h <;>
    split_ifs at h <;>
    simp only [Except.ok.injEq, Prod.mk.injEq] at h
  · rw [← h.1]; norm_num
  · rw [← h.1]; norm_num
  · rw [← h.1]
    have := abs_nonneg (cv + 1/2)
    linarith
  · rw [← h.1]
    have := abs_nonneg (cv + 1/2)
    linarith

/-- Every seed the solver can feed the bracket finder is at least 1/2: the
asymptotic branch (possible only for `nu ≥ -1`, the range `_nu_for` produces)
yields seeds `≥ pi/4 > 1/2`, and the integer-order branch consults the
library zero table, whose entries are `≥ 1` (the smallest positive zero of any
integer-order Bessel J exceeds 2.4). -/
theorem seeds_ge_half {jn_zeros : ℕ → ℕ → List ℚ} {nu : ℚ} {m : ℕ} {x0 : ℚ}
    (hjz : ∀ n k z, z ∈ jn_zeros n k → 1 ≤ z) (hnu : -1 ≤ nu)
    (hx0 : x0 ∈ approx_jv_zeros jn_zeros nu m) : (1:ℚ)/2 ≤ x0 := by
  unfold approx_jv_zeros at hx0
  split_ifs at hx0 with hint
  · linarith [hjz _ _ _ hx0]
  · obtain ⟨i, _, hi⟩ := List.mem_map.mp hx0
    have hpi := pi_float_gt_three
    have hni : (0:ℚ) ≤ (i : ℚ) := Nat.cast_nonneg i
    rw [← hi]
    nlinarith

theorem seedBrackets_mem {F : ℚ → ℚ} {n : ℕ} :
    ∀ {seeds : List ℚ} {acc : List (ℚ × ℚ)} {br : ℚ × ℚ},
      br ∈ seedBrackets F n acc seeds →
      br ∈ acc ∨ ∃ x0 ∈ seeds, bracket_around F x0 (1/5) 30 = some br := by
  intro seeds
  induction seeds with
  | nil => intro acc br h; exact Or.inl h
  | cons s rest ih =>
    intro acc br h
    rw [seedBrackets] at h
    split_ifs at h with hfull
    · exact Or.inl h
    · rcases hmatch : bracket_around F s (1/5) 30 with _ | br2
      · rw [hmatch] at h
        rcases ih h with hl | ⟨x0, hx0, hb⟩
        · exact Or.inl hl
        · exact Or.inr ⟨x0, List.mem_cons_of_mem _ hx0, hb⟩
      · rw [hmatch] at h
        rcases ih h with hl | ⟨x0, hx0, hb⟩
        · rcases List.mem_append.mp hl with hl2 | hl2
          · exact Or.inl hl2
          · rw [List.mem_singleton.mp hl2]
            exact Or.inr ⟨s, List.mem_cons_self .., hmatch⟩
        · exact Or.inr ⟨x0, List.mem_cons_of_mem _ hx0, hb⟩

theorem bracketStage_lower {F : ℚ → ℚ} {jn_zeros : ℕ → ℕ → List ℚ} {nu : ℚ}
    {n_roots : ℕ} {x_max : ℚ} :
    ∀ br ∈ bracketStage F jn_zeros nu n_roots x_max, MIN_X ≤ br.1 := by
  intro br hbr
  simp only [bracketStage] at hbr
  have hseed : ∀ br2 ∈ seedBrackets F n_roots []
      (approx_jv_zeros jn_zeros nu (max n_roots 5)), MIN_X ≤ br2.1 := by
    intro br2 hbr2
    rcases seedBrackets_mem hbr2 with h | ⟨x0, _, hb⟩
    · simp at h
    · obtain ⟨b1, b2⟩ := br2
      exact bracket_around_lower hb
  split_ifs at hbr with hshort
  · rcases List.mem_append.mp hbr with h | h
    · exact hseed br h
    · exact scan_for_brackets_lower (le_of_lt (by linarith [pi_float_gt_three])) br h
  · exact hseed br hbr

theorem bracketStage_ok {F : ℚ → ℚ} {jn_zeros : ℕ → ℕ → List ℚ} {nu : ℚ}
    {n_roots : ℕ} {x_max : ℚ}
    (hjz : ∀ n k z, z ∈ jn_zeros n k → 1 ≤ z) (hnu : -1 ≤ nu) :
    ∀ br ∈ bracketStage F jn_zeros nu n_roots x_max, BracketOK F br := by
  intro br hbr
  simp only [bracketStage] at hbr
  have hseed : ∀ br2 ∈ seedBrackets F n_roots []
      (approx_jv_zeros jn_zeros nu (max n_roots 5)), BracketOK F br2 := by
    intro br2 hbr2
    rcases seedBrackets_mem hbr2 with h | ⟨x0, hx0, hb⟩
    · simp at h
    · exact bracket_around_spec (seeds_ge_half hjz hnu hx0) hb
  split_ifs at hbr with hshort
  · rcases List.mem_append.mp hbr with h | h
    · exact hseed br h
    · exact scan_for_brackets_ok (by linarith [pi_float_gt_three]) br h
  · exact hseed br hbr

theorem solveBracket_ok {brentq : (ℚ → ℚ) → ℚ → ℚ → ℚ → ℚ → ℕ → Except PyErr ℚ}
    {F : ℚ → ℚ} {tol : ℚ} {a b r : ℚ}
    (hspec : BrentqSpec brentq F tol tol) (ha : MIN_X ≤ a)
    (h : solveBracket brentq F tol (a, b) = .ok r) :
    MIN_X ≤ r ∧ a * (99/100) ≤ r ∧ r ≤ b * (101/100) ∧
      ∃ x0, F x0 = 0 ∧ |r - x0| ≤ tol + tol * |x0| := by
  have ha0 : (0:ℚ) < a := lt_of_lt_of_le MIN_X_pos ha
  unfold solveBracket at h
  rcases hfirst : brentq F a b tol tol 200 with e | r1
  · rw [hfirst] at h
    rcases e with msg | msg
    · -- ValueError: the retry result is r
      obtain ⟨hlo, hhi, x0, hx0, hxlo, hxhi, hdist⟩ := hspec _ _ _ _ h
      have hb0 : (0:ℚ) < b := by
        have h1 : MIN_X ≤ max (a * (99/100)) MIN_X := le_max_right _ _
        nlinarith [MIN_X_pos, le_trans (le_trans h1 hlo) hhi]
      refine ⟨le_trans (le_max_right _ _) hlo, ?_, hhi, x0, hx0, hdist⟩
      exact le_trans (le_max_left _ _) hlo
    · simp at h
  · rw [hfirst] at h
    simp only [Except.ok.injEq] at h
    subst h
    obtain ⟨hlo, hhi, x0, hx0, hxlo, hxhi, hdist⟩ := hspec _ _ _ _ hfirst
    have hb0 : (0:ℚ) < b := lt_of_lt_of_le ha0 (le_trans hlo hhi)
    refine ⟨le_trans ha hlo, by nlinarith, by nlinarith, x0, hx0, hdist⟩

theorem solveAll_length {brentq : (ℚ → ℚ) → ℚ → ℚ → ℚ → ℚ → ℕ → Except PyErr ℚ}
    {F : ℚ → ℚ} {tol : ℚ} :
    ∀ {brs : List (ℚ × ℚ)} {xs : List ℚ},
      solveAll brentq F tol brs = .ok xs → xs.length = brs.length := by
  intro brs
  induction brs with
  | nil => intro xs h; simp only [solveAll, Except.ok.injEq] at h; rw [← h]; rfl
  | cons br rest ih =>
    intro xs h
    rw [solveAll] at h
    rcases h1 : solveBracket brentq F tol br with e | r
    · rw [h1] at h; simp at h
    · rw [h1] at h
      rcases h2 : solveAll brentq F tol rest with e | rs
      · rw [h2] at h; simp at h
      · rw [h2] at h
        simp only [Except.ok.injEq] at h
        rw [← h]
        simp [ih h2]

theorem solveAll_mem {brentq : (ℚ → ℚ) → ℚ → ℚ → ℚ → ℚ → ℕ → Except PyErr ℚ}
    {F : ℚ → ℚ} {tol : ℚ} (hspec : BrentqSpec brentq F tol tol) :
    ∀ {brs : List (ℚ × ℚ)} {xs : List ℚ},
      (∀ br ∈ brs, MIN_X ≤ br.1) →
      solveAll brentq F tol brs = .ok xs →
      ∀ r ∈ xs, MIN_X ≤ r ∧ ∃ x0, F x0 = 0 ∧ |r - x0| ≤ tol + tol * |x0| := by
  intro brs
  induction brs with
  | nil =>
    intro xs _ h r hr
    simp only [solveAll, Except.ok.injEq] at h
    rw [← h] at hr
    simp at hr
  | cons br rest ih =>
    intro xs hlo h r hr
    rw [solveAll] at h
    rcases h1 : solveBracket brentq F tol br with e | r1
    · rw [h1] at h; simp at h
    · rw [h1] at h
      rcases h2 : solveAll brentq F tol rest with e | rs
      · rw [h2] at h; simp at h
      · rw [h2] at h
        simp only [Except.ok.injEq] at h
        rw [← h] at hr
        rcases List.mem_cons.mp hr with hr1 | hr2
        · obtain ⟨b1, b2⟩ := br
          have h1b : solveBracket brentq F tol (b1, b2) = .ok r := by rw [hr1]; exact h1
          obtain ⟨hm, _, _, hx⟩ := solveBracket_ok hspec (hlo _ (List.mem_cons_self _ _)) h1b
          exact ⟨hm, hx⟩
        · exact ih (fun br2 hbr2 => hlo br2 (List.mem_cons_of_mem _ hbr2)) h2 r hr2

theorem solveAll_chain {brentq : (ℚ → ℚ) → ℚ → ℚ → ℚ → ℚ → ℕ → Except PyErr ℚ}
    {F : ℚ → ℚ} {tol : ℚ} (hspec : BrentqSpec brentq F tol tol) :
    ∀ {brs : List (ℚ × ℚ)} {xs : List ℚ},
      (∀ br ∈ brs, MIN_X ≤ br.1) →
      List.Chain' (fun u v : ℚ × ℚ => u.2 * (101/100) < v.1 * (99/100)) brs →
      solveAll brentq F tol brs = .ok xs →
      List.Chain' (· < ·) xs := by
  intro brs
  induction brs with
  | nil =>
    intro xs _ _ h
    simp only [solveAll, Except.ok.injEq] at h
    rw [← h]
    exact List.chain'_nil
  | cons br rest ih =>
    intro xs hlo hch h
    rw [solveAll] at h
    rcases h1 : solveBracket brentq F tol br with e | r <;> rw [h1] at h
    · simp at h
    · rcases h2 : solveAll brentq F tol rest with e | rs <;> rw [h2] at h
      · simp at h
      · simp only [Except.ok.injEq] at h
        rw [← h]
        rcases rest with _ | ⟨br2, rest2⟩
        · simp only [solveAll, Except.ok.injEq] at h2
          rw [← h2]
          exact List.chain'_singleton r
        · rw [solveAll] at h2
          rcases h3 : solveBracket brentq F tol br2 with e2 | r2 <;> rw [h3] at h2
          · simp at h2
          · rcases h4 : solveAll brentq F tol rest2 with e3 | rs2 <;> rw [h4] at h2
            · simp at h2
            · simp only [Except.ok.injEq] at h2
              rw [← h2]
              have h2b : solveAll brentq F tol (br2 :: rest2) = .ok (r2 :: rs2) := by
                rw [solveAll, h3, h4]
              have htail : List.Chain' (· < ·) (r2 :: rs2) :=
                ih (fun b hb => hlo b (List.mem_cons_of_mem _ hb))
                  (List.chain'_cons.mp hch).2 h2b
              refine List.chain'_cons.mpr ⟨?_, htail⟩
              have hm1 : MIN_X ≤ br.1 := hlo _ (List.mem_cons_self _ _)
              have hm2 : MIN_X ≤ br2.1 :=
                hlo _ (List.mem_cons_of_mem _ (List.mem_cons_self _ _))
              obtain ⟨b1, b2⟩ := br
              obtain ⟨c1, c2⟩ := br2
              obtain ⟨_, _, hr_hi, _⟩ := solveBracket_ok hspec hm1 h1
              obtain ⟨_, hr2_lo, _, _⟩ := solveBracket_ok hspec hm2 h3
              have hsep := (List.chain'_cons.mp hch).1
              simp only at hsep hr_hi hr2_lo
              linarith

theorem validate_ok_of_missing_nil {g : List (String × ℚ)} (h : missingKeys g = []) :
    validate_geometry g = .ok g := by
  simp [validate_geometry, h]

theorem validate_ok_iff {g g2 : List (String × ℚ)} :
    validate_geometry g = .ok g2 ↔ (missingKeys g = [] ∧ g2 = g) := by
  unfold validate_geometry
  rcases h : missingKeys g with _ | ⟨k, ks⟩ <;> simp [eq_comm]

theorem validate_error_iff {g : List (String × ℚ)} {e : PyErr} :
    validate_geometry g = .error e ↔
      (missingKeys g ≠ [] ∧ e = .valueError (geoMissingMsg (missingKeys g))) := by
  unfold validate_geometry
  rcases h : missingKeys g with _ | ⟨k, ks⟩ <;> simp [h, eq_comm]

theorem missing_mem_iff {g : List (String × ℚ)} {k : String} (hk : k ∈ requiredKeys) :
    k ∈ missingKeys g ↔ dlookup g k = none := by
  unfold missingKeys
  rw [List.mem_filter]
  simp [hk, Option.isNone_iff_eq_none]

theorem missing_nil_lookup {g : List (String × ℚ)} (h : missingKeys g = []) :
    ∀ k ∈ requiredKeys, ∃ v, dlookup g k = some v := by
  intro k hk
  rcases hv : dlookup g k with _ | v
  · exfalso
    have hm : k ∈ missingKeys g := (missing_mem_iff hk).mpr hv
    rw [h] at hm
    simp at hm
  · exact ⟨v, rfl⟩

theorem solve_kk_eq {jv yv : ℚ → ℚ → ℚ} {jz : ℕ → ℕ → List ℚ}
    {bq : (ℚ → ℚ) → ℚ → ℚ → ℚ → ℚ → ℕ → Except PyErr ℚ}
    {species bc : String} {geometry g : List (String × ℚ)} {c : Option ℚ}
    {n : ℕ} {ex : Bool} {tol xm zv eps lam nu : ℚ} {lbl : String}
    (hg : validate_geometry geometry = .ok g)
    (hz : dlookup g "z_v" = some zv)
    (he : dlookup g "epsilon" = some eps)
    (hl : dlookup g "Lambda_IR" = some lam)
    (hn : nu_for species bc c = .ok (nu, lbl)) :
    solve_kk jv yv jz bq species bc geometry c n ex tol xm =
      match solve_core jv yv jz bq nu eps n ex tol xm with
      | .error e => .error e
      | .ok (xs, warns) =>
        .ok { masses := xs.map (fun x => x * lam), x := xs,
              b := xs.map (bCoeff jv yv nu eps ex), nu := nu,
              labels := { nu_label := lbl, species := species, bc := bc, exact := ex },
              geometry := g, warnings := warns } := by
  simp only [solve_kk, hg, dictGet, hz, he, hl, hn]

theorem solve_core_ok_elim {jv yv : ℚ → ℚ → ℚ} {jz : ℕ → ℕ → List ℚ}
    {bq : (ℚ → ℚ) → ℚ → ℚ → ℚ → ℚ → ℕ → Except PyErr ℚ}
    {nu eps : ℚ} {n : ℕ} {ex : Bool} {tol xm : ℚ} {xs : List ℚ} {warns : List String}
    (h : solve_core jv yv jz bq nu eps n ex tol xm = .ok (xs, warns)) :
    solveAll bq (Fsel jv yv nu eps ex) tol
        ((bracketStage (Fsel jv yv nu eps ex) jz nu n xm).take
          (if (bracketStage (Fsel jv yv nu eps ex) jz nu n xm).length < n
           then (bracketStage (Fsel jv yv nu eps ex) jz nu n xm).length
           else n)) = .ok xs ∧
      warns = (if (bracketStage (Fsel jv yv nu eps ex) jz nu n xm).length < n
               then [shortfallMsg (bracketStage (Fsel jv yv nu eps ex) jz nu n xm).length xm]
               else []) := by
  simp only [solve_core] at h
  rcases hs : solveAll bq (Fsel jv yv nu eps ex) tol
      ((bracketStage (Fsel jv yv nu eps ex) jz nu n xm).take
        (if (bracketStage (Fsel jv yv nu eps ex) jz nu n xm).length < n
         then (bracketStage (Fsel jv yv nu eps ex) jz nu n xm).length
         else n)) with e | xs2
  · rw [hs] at h; simp at h
  · rw [hs] at h
    simp only [Except.ok.injEq, Prod.mk.injEq] at h
    obtain ⟨h1, h2⟩ := h
    subst h1
    exact ⟨rfl, h2.symm⟩

/-! ### Claim theorems -/

/-- C3: `_nu_for` implements the spec's order-selection table exactly, for every
input: gauge/"NN" gives 0; gauge with any other bc fails; fermion "++" with c
gives `|c + 0.5| - 1`; fermion "--" with c gives `|c + 0.5|`; fermion with any
other bc, or with c omitted, fails; any other species fails; and a negative
order is returned unmodified (c = -0.5 with "++" gives -1, not 0). -/
theorem nu_for_matches_spec_table (sp bc : String) (c : ℚ) (co : Option ℚ) :
    nu_for "gauge" "NN" co = .ok (0, "nu=0 (gauge, NN)") ∧
    (bc ≠ "NN" → failed (nu_for "gauge" bc co) = true) ∧
    nu_for "fermion" "++" (some c) = .ok (|c + 1/2| - 1, "nu=alpha-1 (fermion, ++)") ∧
    nu_for "fermion" "--" (some c) = .ok (|c + 1/2|, "nu=alpha (fermion, --)") ∧
    (bc ≠ "++" → bc ≠ "--" → failed (nu_for "fermion" bc (some c)) = true) ∧
    failed (nu_for "fermion" bc none) = true ∧
    (sp ≠ "gauge" → sp ≠ "fermion" → failed (nu_for sp bc co) = true) ∧
    nu_for "fermion" "++" (some (-(1:ℚ)/2)) = .ok (-1, "nu=alpha-1 (fermion, ++)") := by
  refine ⟨?_, ?_, ?_, ?_, ?_, ?_, ?_, ?_⟩
  · simp [nu_for]
  · intro h; simp [nu_for, h, failed]
  · simp [nu_for]
  · simp [nu_for]
  · intro h1 h2; simp [nu_for, h1, h2, failed]
  · simp [nu_for, failed]
  · intro h1 h2; simp [nu_for, h1, h2, failed]
  · simp [nu_for]
    norm_num

/-- Witness for C3 at concrete inputs. -/
theorem nu_for_matches_spec_table_witness :
    nu_for "gauge" "NN" none = .ok (0, "nu=0 (gauge, NN)") ∧
    failed (nu_for "gauge" "XX" none) = true ∧
    nu_for "fermion" "++" (some (-(1:ℚ)/2)) =
      .ok (|(-(1:ℚ)/2) + 1/2| - 1, "nu=alpha-1 (fermion, ++)") ∧
    nu_for "fermion" "--" (some (-(1:ℚ)/2)) =
      .ok (|(-(1:ℚ)/2) + 1/2|, "nu=alpha (fermion, --)") ∧
    failed (nu_for "fermion" "XX" (some (-(1:ℚ)/2))) = true ∧
    failed (nu_for "fermion" "XX" none) = true ∧
    failed (nu_for "scalar" "XX" none) = true ∧
    nu_for "fermion" "++" (some (-(1:ℚ)/2)) = .ok (-1, "nu=alpha-1 (fermion, ++)") := by
  obtain ⟨h1, h2, h3, h4, h5, h6, h7, h8⟩ :=
    nu_for_matches_spec_table "scalar" "XX" (-(1:ℚ)/2) none
  exact ⟨h1, h2 (by decide), h3, h4, h5 (by decide) (by decide), h6,
    h7 (by decide) (by decide), h8⟩

/-- C7: `_validate_geometry` fails iff at least one of the three required keys
is absent; the single raised `ValueError` carries the message built from the
complete list of missing required keys (so it names each of them); on success
it returns exactly the caller's entries (any superset accepted unchanged — and
the embedding is pure, so the caller's mapping cannot be mutated). -/
theorem validate_geometry_spec (g g2 : List (String × ℚ)) (k : String) :
    (failed (validate_geometry g) = true ↔ missingKeys g ≠ []) ∧
    (missingKeys g ≠ [] ↔ ∃ k2 ∈ requiredKeys, dlookup g k2 = none) ∧
    (missingKeys g ≠ [] →
      validate_geometry g = .error (.valueError (geoMissingMsg (missingKeys g)))) ∧
    (k ∈ requiredKeys → (dlookup g k = none ↔ k ∈ missingKeys g)) ∧
    (validate_geometry g = .ok g2 → g2 = g) ∧
    (missingKeys g = [] → validate_geometry g = .ok g) := by
  refine ⟨?_, ?_, ?_, ?_, ?_, validate_ok_of_missing_nil⟩
  · rcases h : missingKeys g with _ | ⟨a, as⟩ <;> simp [validate_geometry, h, failed]
  · constructor
    · intro hne
      rcases h : missingKeys g with _ | ⟨a, as⟩
      · exact absurd h hne
      · have ha : a ∈ missingKeys g := h ▸ List.mem_cons_self _ _
        have hfa := List.mem_filter.mp ha
        exact ⟨a, hfa.1, Option.isNone_iff_eq_none.mp (by simpa using hfa.2)⟩
    · rintro ⟨k2, hk2, hnone⟩ hnil
      have hm : k2 ∈ missingKeys g := (missing_mem_iff hk2).mpr hnone
      rw [hnil] at hm
      simp at hm
  · intro hne
    rw [validate_error_iff]
    exact ⟨hne, rfl⟩
  · intro hk
    exact (missing_mem_iff hk).symm
  · intro h
    exact (validate_ok_iff.mp h).2

/-- Witness for C7: a mapping missing two required keys fails with the message
naming both; a superset mapping passes through unchanged. -/
theorem validate_geometry_spec_witness :
    failed (validate_geometry [("z_v", 1)]) = true ∧
    validate_geometry [("z_v", 1)] =
      .error (.valueError (geoMissingMsg (missingKeys [("z_v", 1)]))) ∧
    ("Lambda_IR" ∈ missingKeys [("z_v", (1:ℚ))] ∧ "epsilon" ∈ missingKeys [("z_v", (1:ℚ))]) ∧
    (dlookup [("z_v", (1:ℚ))] "epsilon" = none ↔ "epsilon" ∈ missingKeys [("z_v", (1:ℚ))]) ∧
    validate_geometry [("Lambda_IR", 3), ("z_v", 5), ("epsilon", 7), ("extra", 9)] =
      .ok [("Lambda_IR", 3), ("z_v", 5), ("epsilon", 7), ("extra", 9)] := by
  obtain ⟨h1, h2, h3, h4, h5, h6⟩ :=
    validate_geometry_spec [("z_v", 1)] [("z_v", 1)] "epsilon"
  obtain ⟨g1, g2, g3, g4, g5, g6⟩ :=
    validate_geometry_spec [("Lambda_IR", 3), ("z_v", 5), ("epsilon", 7), ("extra", 9)]
      [("Lambda_IR", 3), ("z_v", 5), ("epsilon", 7), ("extra", 9)] "epsilon"
  exact ⟨h1.mpr (by decide), h3 (by decide), by decide, h4 (by decide), g6 (by decide)⟩

/-- C5 counterexample: the claim asserts that the exact quantization function
returns `+1` at `x = 0`; the source's `np.sign(0) * 1.0` is `0`, not `+1`
(shown here at a concrete instantiation of the Bessel parameters, order 0 and
warp factor 1/2; the floor branch does not consult them). -/
theorem F_exact_zero_at_origin :
    F_exact (fun _ _ => 1) (fun _ _ => 1) 0 (1/2) 0 = 0 ∧
    F_exact (fun _ _ => 1) (fun _ _ => 1) 0 (1/2) 0 ≠ 1 := by
  norm_num [F_exact, npSign, MIN_X]

/-- C5 (amended): for every `x` strictly above the floor `_MIN_X` the exact
form is the cross product `J(x)Y(eps x) - J(eps x)Y(x)`; for `x` at or below
the floor it is `sign(x)`; in particular `F(0) = sign(0) = 0` (not `+1`). -/
theorem F_exact_characterization (jv yv : ℚ → ℚ → ℚ) (nu eps x : ℚ) :
    (MIN_X < x →
      F_exact jv yv nu eps x = jv nu x * yv nu (eps * x) - jv nu (eps * x) * yv nu x) ∧
    (x ≤ MIN_X → F_exact jv yv nu eps x = npSign x) ∧
    F_exact jv yv nu eps 0 = 0 := by
  refine ⟨?_, ?_, ?_⟩
  · intro h; simp [F_exact, not_le.mpr h]
  · intro h; simp [F_exact, h]
  · have h0 : (0:ℚ) ≤ MIN_X := le_of_lt MIN_X_pos
    simp [F_exact, h0, npSign]

/-- Witness for C5's amended characterization at concrete points above and
below the floor. -/
theorem F_exact_characterization_witness :
    MIN_X < (1:ℚ) ∧
    F_exact (fun _ _ => 3) (fun _ _ => 5) 0 (1/2) 1 = 3 * 5 - 3 * 5 ∧
    (-1:ℚ) ≤ MIN_X ∧
    F_exact (fun _ _ => 3) (fun _ _ => 5) 0 (1/2) (-1) = npSign (-1) :=
  ⟨by norm_num [MIN_X],
   (F_exact_characterization (fun _ _ => 3) (fun _ _ => 5) 0 (1/2) 1).1 (by norm_num [MIN_X]),
   by norm_num [MIN_X],
   (F_exact_characterization (fun _ _ => 3) (fun _ _ => 5) 0 (1/2) (-1)).2.1 (by norm_num [MIN_X])⟩

/-- C4: when the bracket stage (seed search plus fallback scan) finds fewer
brackets than `n_roots`, `solve_kk` emits a warning-level diagnostic (the
`warnings.warn` of the source, collected in the `warnings` field), truncates
the request to the brackets found, and — provided the refinement of those found
brackets succeeds — returns normally with a shorter-than-requested spectrum;
the shortfall itself never raises. -/
theorem solve_kk_shortfall_warns_and_truncates
    (jv yv : ℚ → ℚ → ℚ) (jz : ℕ → ℕ → List ℚ)
    (bq : (ℚ → ℚ) → ℚ → ℚ → ℚ → ℚ → ℕ → Except PyErr ℚ)
    (species bc : String) (geometry g : List (String × ℚ)) (c : Option ℚ)
    (n : ℕ) (ex : Bool) (tol xm zv eps lam nu : ℚ) (lbl : String) (xs : List ℚ)
    (hg : validate_geometry geometry = .ok g)
    (hz : dlookup g "z_v" = some zv) (he : dlookup g "epsilon" = some eps)
    (hl : dlookup g "Lambda_IR" = some lam)
    (hn : nu_for species bc c = .ok (nu, lbl))
    (hshort : (bracketStage (Fsel jv yv nu eps ex) jz nu n xm).length < n)
    (hsolve : solveAll bq (Fsel jv yv nu eps ex) tol
        (bracketStage (Fsel jv yv nu eps ex) jz nu n xm) = .ok xs) :
    ∃ out : SolveOut,
      solve_kk jv yv jz bq species bc geometry c n ex tol xm = .ok out ∧
      out.masses.length = (bracketStage (Fsel jv yv nu eps ex) jz nu n xm).length ∧
      out.masses.length < n ∧
      out.warnings = [shortfallMsg (bracketStage (Fsel jv yv nu eps ex) jz nu n xm).length xm] := by
  have hcore : solve_core jv yv jz bq nu eps n ex tol xm =
      .ok (xs, [shortfallMsg (bracketStage (Fsel jv yv nu eps ex) jz nu n xm).length xm]) := by
    simp only [solve_core, if_pos hshort, List.take_length, hsolve]
  rw [solve_kk_eq hg hz he hl hn, hcore]
  refine ⟨_, rfl, ?_, ?_, rfl⟩
  · simp [List.length_map, solveAll_length hsolve]
  · simp only [SolveOut.masses, List.length_map, solveAll_length hsolve]
    exact hshort

/-- C9: each mass is exactly the dimensionless root times `Lambda_IR`, and the
spectrum is exactly linear in `Lambda_IR`: two calls whose geometries agree on
`epsilon` (and `z_v`) and have `Lambda_IR` values `L1`, `L2` produce identical
dimensionless roots; the masses satisfy `mass = x * L` in each run, rescale
pointwise (`mass2 * L1 = mass1 * L2`), and doubling `Lambda_IR` doubles every
mass. -/
theorem solve_kk_mass_linear_in_Lambda_IR
    (jv yv : ℚ → ℚ → ℚ) (jz : ℕ → ℕ → List ℚ)
    (bq : (ℚ → ℚ) → ℚ → ℚ → ℚ → ℚ → ℕ → Except PyErr ℚ)
    (species bc : String) (g1 g2 : List (String × ℚ)) (c : Option ℚ)
    (n : ℕ) (ex : Bool) (tol xm L1 L2 nu : ℚ) (lbl : String)
    (h1 : missingKeys g1 = []) (h2 : missingKeys g2 = [])
    (hL1 : dlookup g1 "Lambda_IR" = some L1) (hL2 : dlookup g2 "Lambda_IR" = some L2)
    (hzv : dlookup g1 "z_v" = dlookup g2 "z_v")
    (heps : dlookup g1 "epsilon" = dlookup g2 "epsilon")
    (hn : nu_for species bc c = .ok (nu, lbl)) :
    (∀ out, solve_kk jv yv jz bq species bc g1 c n ex tol xm = .ok out →
      out.masses = out.x.map (fun x => x * L1)) ∧
    ((solve_kk jv yv jz bq species bc g1 c n ex tol xm).map SolveOut.x =
      (solve_kk jv yv jz bq species bc g2 c n ex tol xm).map SolveOut.x) ∧
    (∀ out1 out2, solve_kk jv yv jz bq species bc g1 c n ex tol xm = .ok out1 →
      solve_kk jv yv jz bq species bc g2 c n ex tol xm = .ok out2 →
      out1.x = out2.x ∧
      out1.masses = out1.x.map (fun x => x * L1) ∧
      out2.masses = out2.x.map (fun x => x * L2) ∧
      out2.masses.map (fun m => m * L1) = out1.masses.map (fun m => m * L2) ∧
      (L2 = 2 * L1 → out2.masses = out1.masses.map (fun m => 2 * m))) := by
  obtain ⟨zv1, hz1⟩ := missing_nil_lookup h1 "z_v" (by simp [requiredKeys])
  obtain ⟨eps1, he1⟩ := missing_nil_lookup h1 "epsilon" (by simp [requiredKeys])
  have hz2 : dlookup g2 "z_v" = some zv1 := hzv ▸ hz1
  have he2 : dlookup g2 "epsilon" = some eps1 := heps ▸ he1
  have hv1 := validate_ok_of_missing_nil h1
  have hv2 := validate_ok_of_missing_nil h2
  rw [solve_kk_eq hv1 hz1 he1 hL1 hn, solve_kk_eq hv2 hz2 he2 hL2 hn]
  rcases hc : solve_core jv yv jz bq nu eps1 n ex tol xm with e | ⟨xs, warns⟩
  · refine ⟨?_, rfl, ?_⟩
    · intro out hout; cases hout
    · intro out1 out2 hout1; cases hout1
  · refine ⟨?_, rfl, ?_⟩
    · intro out hout
      simp only [Except.ok.injEq] at hout
      rw [← hout]
    · intro out1 out2 hout1 hout2
      simp only [Except.ok.injEq] at hout1 hout2
      rw [← hout1, ← hout2]
      refine ⟨rfl, rfl, rfl, ?_, ?_⟩
      · simp only [List.map_map]
        have hfg : ((fun m => m * L1) ∘ fun x => x * L2) = ((fun m => m * L2) ∘ fun x => x * L1) := by
          funext x
          simp only [Function.comp_apply]
          ring
        rw [hfg]
      · intro hdb
        subst hdb
        simp only [List.map_map]
        have hfg : ((fun m => 2 * m) ∘ fun x => x * L1) = (fun x => x * (2 * L1)) := by
          funext x
          simp only [Function.comp_apply]
          ring
        rw [hfg]

/-- C10: the spectrum ignores `z_v` and any extra geometry entries — two
geometries that both contain the required keys and agree on `Lambda_IR` and
`epsilon` yield identical masses, dimensionless roots, mixing coefficients and
order, whatever their `z_v` values or additional entries. -/
theorem solve_kk_independent_of_z_v
    (jv yv : ℚ → ℚ → ℚ) (jz : ℕ → ℕ → List ℚ)
    (bq : (ℚ → ℚ) → ℚ → ℚ → ℚ → ℚ → ℕ → Except PyErr ℚ)
    (species bc : String) (g1 g2 : List (String × ℚ)) (c : Option ℚ)
    (n : ℕ) (ex : Bool) (tol xm : ℚ)
    (h1 : missingKeys g1 = []) (h2 : missingKeys g2 = [])
    (hL : dlookup g1 "Lambda_IR" = dlookup g2 "Lambda_IR")
    (heps : dlookup g1 "epsilon" = dlookup g2 "epsilon") :
    (solve_kk jv yv jz bq species bc g1 c n ex tol xm).map
        (fun o => (o.masses, o.x, o.b, o.nu)) =
      (solve_kk jv yv jz bq species bc g2 c n ex tol xm).map
        (fun o => (o.masses, o.x, o.b, o.nu)) := by
  obtain ⟨zv1, hz1⟩ := missing_nil_lookup h1 "z_v" (by simp [requiredKeys])
  obtain ⟨zv2, hz2⟩ := missing_nil_lookup h2 "z_v" (by simp [requiredKeys])
  obtain ⟨eps1, he1⟩ := missing_nil_lookup h1 "epsilon" (by simp [requiredKeys])
  obtain ⟨L1, hL1⟩ := missing_nil_lookup h1 "Lambda_IR" (by simp [requiredKeys])
  have he2 : dlookup g2 "epsilon" = some eps1 := heps ▸ he1
  have hL2 : dlookup g2 "Lambda_IR" = some L1 := hL ▸ hL1
  have hv1 := validate_ok_of_missing_nil h1
  have hv2 := validate_ok_of_missing_nil h2
  rcases hn : nu_for species bc c with e | ⟨nu, lbl⟩
  · simp only [solve_kk, hv1, hv2, dictGet, hz1, hz2, he1, he2, hL1, hL2, hn]
  · rw [solve_kk_eq hv1 hz1 he1 hL1 hn, solve_kk_eq hv2 hz2 he2 hL2 hn]
    rcases hc : solve_core jv yv jz bq nu eps1 n ex tol xm with e | ⟨xs, warns⟩ <;> rfl

/-- C1 (amended): every root returned by `solve_kk` is positive (indeed
`≥ _MIN_X`), and — under `brentq`'s documented contract, whose tolerance is on
the root's position, not on the residual — lies within `tol + tol*|x0|` of a
true zero `x0` of the quantization function selected by `exact`.  The claim's
`|F(root)| ≤ tol` is NOT guaranteed by the code (see the counterexample): the
source passes `tol` as `xtol`/`rtol`, an x-space tolerance. -/
theorem solve_kk_roots_positive_near_true_root
    (jv yv : ℚ → ℚ → ℚ) (jz : ℕ → ℕ → List ℚ)
    (bq : (ℚ → ℚ) → ℚ → ℚ → ℚ → ℚ → ℕ → Except PyErr ℚ)
    (species bc : String) (geometry g : List (String × ℚ)) (c : Option ℚ)
    (n : ℕ) (ex : Bool) (tol xm zv eps lam nu : ℚ) (lbl : String) (out : SolveOut)
    (hg : validate_geometry geometry = .ok g)
    (hz : dlookup g "z_v" = some zv) (he : dlookup g "epsilon" = some eps)
    (hl : dlookup g "Lambda_IR" = some lam)
    (hn : nu_for species bc c = .ok (nu, lbl))
    (hspec : BrentqSpec bq (Fsel jv yv nu eps ex) tol tol)
    (hout : solve_kk jv yv jz bq species bc geometry c n ex tol xm = .ok out) :
    ∀ r ∈ out.x, 0 < r ∧ MIN_X ≤ r ∧
      ∃ x0, Fsel jv yv nu eps ex x0 = 0 ∧ |r - x0| ≤ tol + tol * |x0| := by
  rw [solve_kk_eq hg hz he hl hn] at hout
  rcases hc : solve_core jv yv jz bq nu eps n ex tol xm with e | ⟨xs, warns⟩ <;>
    rw [hc] at hout
  · cases hout
  · simp only [Except.ok.injEq] at hout
    obtain ⟨hall, -⟩ := solve_core_ok_elim hc
    have hlow : ∀ br ∈ (bracketStage (Fsel jv yv nu eps ex) jz nu n xm).take
        (if (bracketStage (Fsel jv yv nu eps ex) jz nu n xm).length < n
         then (bracketStage (Fsel jv yv nu eps ex) jz nu n xm).length else n),
        MIN_X ≤ br.1 := by
      intro br hbr
      exact bracketStage_lower br (List.take_subset _ _ hbr)
    have hx : out.x = xs := by rw [← hout]
    rw [hx]
    intro r hr
    obtain ⟨hm, hexists⟩ := solveAll_mem hspec hlow hall r hr
    exact ⟨lt_of_lt_of_le MIN_X_pos hm, hm, hexists⟩

/-- C2 (amended): the returned dimensionless roots are strictly increasing
whenever the consumed brackets are pairwise separated — each bracket's upper
end, even after the 1% retry nudge, lies below the next bracket's (nudged)
lower end.  Overlapping brackets, which the finder can produce when expansion
around distinct seeds brackets the same zero, may yield repeated or decreasing
roots (see the counterexample); the code never sorts or deduplicates. -/
theorem solve_kk_roots_increasing_of_separated_brackets
    (jv yv : ℚ → ℚ → ℚ) (jz : ℕ → ℕ → List ℚ)
    (bq : (ℚ → ℚ) → ℚ → ℚ → ℚ → ℚ → ℕ → Except PyErr ℚ)
    (species bc : String) (geometry g : List (String × ℚ)) (c : Option ℚ)
    (n : ℕ) (ex : Bool) (tol xm zv eps lam nu : ℚ) (lbl : String) (out : SolveOut)
    (hg : validate_geometry geometry = .ok g)
    (hz : dlookup g "z_v" = some zv) (he : dlookup g "epsilon" = some eps)
    (hl : dlookup g "Lambda_IR" = some lam)
    (hn : nu_for species bc c = .ok (nu, lbl))
    (hspec : BrentqSpec bq (Fsel jv yv nu eps ex) tol tol)
    (hsep : List.Chain' (fun u v : ℚ × ℚ => u.2 * (101/100) < v.1 * (99/100))
      ((bracketStage (Fsel jv yv nu eps ex) jz nu n xm).take
        (if (bracketStage (Fsel jv yv nu eps ex) jz nu n xm).length < n
         then (bracketStage (Fsel jv yv nu eps ex) jz nu n xm).length else n)))
    (hout : solve_kk jv yv jz bq species bc geometry c n ex tol xm = .ok out) :
    List.Chain' (· < ·) out.x := by
  rw [solve_kk_eq hg hz he hl hn] at hout
  rcases hc : solve_core jv yv jz bq nu eps n ex tol xm with e | ⟨xs, warns⟩ <;>
    rw [hc] at hout
  · cases hout
  · simp only [Except.ok.injEq] at hout
    obtain ⟨hall, -⟩ := solve_core_ok_elim hc
    have hlow : ∀ br ∈ (bracketStage (Fsel jv yv nu eps ex) jz nu n xm).take
        (if (bracketStage (Fsel jv yv nu eps ex) jz nu n xm).length < n
         then (bracketStage (Fsel jv yv nu eps ex) jz nu n xm).length else n),
        MIN_X ≤ br.1 := by
      intro br hbr
      exact bracketStage_lower br (List.take_subset _ _ hbr)
    have hx : out.x = xs := by rw [← hout]
    rw [hx]
    exact solveAll_chain hspec hlow hsep hall

/-- Concrete Bessel-J instantiation for C1's witness run: a single zero at 3. -/
def jvW1 : ℚ → ℚ → ℚ := fun _ x => x - 3

/-- Concrete Bessel-Y instantiation for C1's witness run. -/
def yvW1 : ℚ → ℚ → ℚ := fun _ _ => 1

/-- Concrete zero-table instantiation for C1's witness run. -/
def jzW1 : ℕ → ℕ → List ℚ := fun _ k => List.replicate k 3

/-- Concrete root-finder instantiation for C1's witness run: returns the exact
root 3 whenever the supplied interval contains it. -/
def bqW1 : (ℚ → ℚ) → ℚ → ℚ → ℚ → ℚ → ℕ → Except PyErr ℚ :=
  fun _ a b _ _ _ => if a ≤ 3 ∧ 3 ≤ b then .ok 3 else .error (.valueError "no sign change")

/-- Geometry mapping for C1's witness run. -/
def gW1 : List (String × ℚ) := [("Lambda_IR", 2), ("z_v", 1), ("epsilon", 1/2)]

/-- The full output of C1's witness run. -/
def outW1 : SolveOut :=
  { masses := [6], x := [3], b := [some (3/2)], nu := 0,
    labels := { nu_label := "nu=0 (gauge, NN)", species := "gauge", bc := "NN", exact := false },
    geometry := gW1, warnings := [] }

/-- The C1 witness root-finder satisfies brentq's documented contract. -/
theorem bqW1_spec : BrentqSpec bqW1 (Fsel jvW1 yvW1 0 (1/2) false) (1/10^12) (1/10^12) := by
  intro a b k r h
  unfold bqW1 at h
  split_ifs at h with hc
  · simp only [Except.ok.injEq] at h
    subst h
    exact ⟨hc.1, hc.2, 3, by norm_num [Fsel, F_ironly, jvW1, MIN_X], hc.1, hc.2,
      by norm_num [abs_le]⟩

/-- Witness for C1's amended theorem on a complete concrete run. -/
theorem solve_kk_roots_positive_near_true_root_witness :
    solve_kk jvW1 yvW1 jzW1 bqW1 "gauge" "NN" gW1 none 1 false (1/10^12) 200 = .ok outW1 ∧
    ∀ r ∈ outW1.x, 0 < r ∧ MIN_X ≤ r ∧
      ∃ x0, Fsel jvW1 yvW1 0 (1/2) false x0 = 0 ∧ |r - x0| ≤ 1/10^12 + 1/10^12 * |x0| := by
  have hg : validate_geometry gW1 = .ok gW1 :=
    validate_ok_of_missing_nil (by simp [missingKeys, requiredKeys, dlookup, gW1, List.filter])
  have hz : dlookup gW1 "z_v" = some 1 := by simp [dlookup, gW1]
  have he : dlookup gW1 "epsilon" = some (1/2) := by simp [dlookup, gW1]
  have hl : dlookup gW1 "Lambda_IR" = some 2 := by simp [dlookup, gW1]
  have hn : nu_for "gauge" "NN" none = .ok (0, "nu=0 (gauge, NN)") := by simp [nu_for]
  have hcore : solve_core jvW1 yvW1 jzW1 bqW1 0 (1/2) 1 false (1/10^12) 200 = .ok ([3], []) := by
    norm_num [solve_core, Fsel, bracketStage, approx_jv_zeros, seedBrackets, bracket_around,
      F_ironly, npSign, MIN_X, solveAll, solveBracket, jvW1, jzW1, bqW1, max_def]
  have hout : solve_kk jvW1 yvW1 jzW1 bqW1 "gauge" "NN" gW1 none 1 false (1/10^12) 200 =
      .ok outW1 := by
    rw [solve_kk_eq hg hz he hl hn, hcore]
    norm_num [outW1, bCoeff, jvW1, yvW1]
  exact ⟨hout, solve_kk_roots_positive_near_true_root jvW1 yvW1 jzW1 bqW1 "gauge" "NN" gW1 gW1
    none 1 false (1/10^12) 200 1 (1/2) 2 0 "nu=0 (gauge, NN)" outW1
    hg hz he hl hn bqW1_spec hout⟩

/-- Concrete instantiations for C1's counterexample: a quantization function of
slope `10^12` about its zero at 3 (via the Bessel-J parameter). -/
def jvC1 : ℚ → ℚ → ℚ := fun _ x => 10^12 * (x - 3)

/-- Bessel-Y instantiation for C1's counterexample. -/
def yvC1 : ℚ → ℚ → ℚ := fun _ _ => 1

/-- Zero-table instantiation for C1's counterexample. -/
def jzC1 : ℕ → ℕ → List ℚ := fun _ k => List.replicate k 3

/-- Root-finder instantiation for C1's counterexample: returns `3 + 4e-12`, a
point within `xtol + rtol*|3|` of the true root 3 — exactly what brentq's
contract permits at `xtol = rtol = 1e-12`. -/
def bqC1 : (ℚ → ℚ) → ℚ → ℚ → ℚ → ℚ → ℕ → Except PyErr ℚ :=
  fun _ a b _ _ _ =>
    if a ≤ 3 ∧ 3 + 4/10^12 ≤ b then .ok (3 + 4/10^12)
    else .error (.valueError "f(a) and f(b) must have different signs")

/-- Geometry mapping for C1's counterexample run. -/
def gC1 : List (String × ℚ) := [("Lambda_IR", 1), ("z_v", 1), ("epsilon", 1/2)]

/-- C1 counterexample: a run whose root-finder satisfies brentq's documented
x-space contract returns the root `3 + 4e-12`, at which `|F| = 4`, vastly above
the requested tolerance `1e-12` — so "|F(x)| is within the requested tolerance
of zero" is false as stated: the code's `tol` bounds the error in x, not the
residual. -/
theorem solve_kk_residual_can_exceed_tol :
    BrentqSpec bqC1 (Fsel jvC1 yvC1 0 (1/2) false) (1/10^12) (1/10^12) ∧
    (solve_kk jvC1 yvC1 jzC1 bqC1 "gauge" "NN" gC1 none 1 false (1/10^12) 200).map SolveOut.x
      = .ok [3 + 4/10^12] ∧
    ¬ |Fsel jvC1 yvC1 0 (1/2) false (3 + 4/10^12)| ≤ 1/10^12 := by
  refine ⟨?_, ?_, ?_⟩
  · intro a b k r h
    unfold bqC1 at h
    split_ifs at h with hc
    · simp only [Except.ok.injEq] at h
      subst h
      exact ⟨le_trans hc.1 (by norm_num), hc.2, 3,
        by norm_num [Fsel, F_ironly, jvC1, MIN_X], hc.1, le_trans (by norm_num) hc.2,
        by norm_num [abs_le]⟩
  · have hg : validate_geometry gC1 = .ok gC1 :=
      validate_ok_of_missing_nil (by simp [missingKeys, requiredKeys, dlookup, gC1, List.filter])
    have hz : dlookup gC1 "z_v" = some 1 := by simp [dlookup, gC1]
    have he : dlookup gC1 "epsilon" = some (1/2) := by simp [dlookup, gC1]
    have hl : dlookup gC1 "Lambda_IR" = some 1 := by simp [dlookup, gC1]
    have hn : nu_for "gauge" "NN" none = .ok (0, "nu=0 (gauge, NN)") := by simp [nu_for]
    have hcore : solve_core jvC1 yvC1 jzC1 bqC1 0 (1/2) 1 false (1/10^12) 200 =
        .ok ([3 + 4/10^12], []) := by
      norm_num [solve_core, Fsel, bracketStage, approx_jv_zeros, seedBrackets, bracket_around,
        F_ironly, npSign, MIN_X, solveAll, solveBracket, jvC1, jzC1, bqC1, max_def]
    rw [solve_kk_eq hg hz he hl hn, hcore]
    rfl
  · norm_num [Fsel, F_ironly, jvC1, MIN_X]

/-- Bessel-J instantiation for C2's witness run: zeros at 3 and 13. -/
def jvW2 : ℚ → ℚ → ℚ := fun _ x => (x - 3) * (x - 13)
/-- Bessel-Y instantiation for C2's witness run. -/
def yvW2 : ℚ → ℚ → ℚ := fun _ _ => 1
/-- Zero-table instantiation for C2's witness run: seeds 3, 13, 23, ... -/
def jzW2 : ℕ → ℕ → List ℚ := fun _ k => (List.range k).map (fun i : ℕ => 3 + 10 * (i:ℚ))
/-- Root-finder for C2's witness run: returns whichever of the true zeros 3,
13 the supplied interval contains. -/
def bqW2 : (ℚ → ℚ) → ℚ → ℚ → ℚ → ℚ → ℕ → Except PyErr ℚ :=
  fun _ a b _ _ _ =>
    if a ≤ 3 ∧ 3 ≤ b then .ok 3
    else if a ≤ 13 ∧ 13 ≤ b then .ok 13
    else .error (.valueError "no sign change")
/-- Geometry mapping for C2's witness run. -/
def gW2 : List (String × ℚ) := [("Lambda_IR", 2), ("z_v", 1), ("epsilon", 1/2)]
/-- Full output of C2's witness run. -/
def outW2 : SolveOut :=
  { masses := [6, 26], x := [3, 13], b := [some (-(69/4)), some (91/4)], nu := 0,
    labels := { nu_label := "nu=0 (gauge, NN)", species := "gauge", bc := "NN", exact := false },
    geometry := gW2, warnings := [] }

/-- The C2 witness root-finder satisfies brentq's documented contract. -/
theorem bqW2_spec : BrentqSpec bqW2 (Fsel jvW2 yvW2 0 (1/2) false) (1/10^12) (1/10^12) := by
  intro a b k r h
  unfold bqW2 at h
  split_ifs at h with hc1 hc2
  · simp only [Except.ok.injEq] at h
    subst h
    exact ⟨hc1.1, hc1.2, 3, by norm_num [Fsel, F_ironly, jvW2, MIN_X], hc1.1, hc1.2,
      by norm_num [abs_le]⟩
  · simp only [Except.ok.injEq] at h
    subst h
    exact ⟨hc2.1, hc2.2, 13, by norm_num [Fsel, F_ironly, jvW2, MIN_X], hc2.1, hc2.2,
      by norm_num [abs_le]⟩

/-- Witness for C2's amended theorem: a run whose two brackets are disjoint and
ordered produces strictly increasing roots. -/
theorem solve_kk_roots_increasing_of_separated_brackets_witness :
    solve_kk jvW2 yvW2 jzW2 bqW2 "gauge" "NN" gW2 none 2 false (1/10^12) 200 = .ok outW2 ∧
    List.Chain' (· < ·) outW2.x := by
  have hg : validate_geometry gW2 = .ok gW2 :=
    validate_ok_of_missing_nil (by simp [missingKeys, requiredKeys, dlookup, gW2, List.filter])
  have hz : dlookup gW2 "z_v" = some 1 := by simp [dlookup, gW2]
  have he : dlookup gW2 "epsilon" = some (1/2) := by simp [dlookup, gW2]
  have hl : dlookup gW2 "Lambda_IR" = some 2 := by simp [dlookup, gW2]
  have hn : nu_for "gauge" "NN" none = .ok (0, "nu=0 (gauge, NN)") := by simp [nu_for]
  have hstage : bracketStage (Fsel jvW2 yvW2 0 (1/2) false) jzW2 0 2 200 =
      [(12/5, 18/5), (52/5, 78/5)] := by
    norm_num [bracketStage, approx_jv_zeros, seedBrackets, bracket_around, Fsel, F_ironly,
      npSign, MIN_X, jvW2, jzW2, max_def]
  have hsep : List.Chain' (fun u v : ℚ × ℚ => u.2 * (101/100) < v.1 * (99/100))
      ((bracketStage (Fsel jvW2 yvW2 0 (1/2) false) jzW2 0 2 200).take
        (if (bracketStage (Fsel jvW2 yvW2 0 (1/2) false) jzW2 0 2 200).length < 2
         then (bracketStage (Fsel jvW2 yvW2 0 (1/2) false) jzW2 0 2 200).length else 2)) := by
    rw [hstage]
    norm_num [List.chain'_cons, List.chain'_singleton]
  have hcore : solve_core jvW2 yvW2 jzW2 bqW2 0 (1/2) 2 false (1/10^12) 200 =
      .ok ([3, 13], []) := by
    norm_num [solve_core, Fsel, bracketStage, approx_jv_zeros, seedBrackets, bracket_around,
      F_ironly, npSign, MIN_X, solveAll, solveBracket, jvW2, jzW2, bqW2, max_def]
  have hout : solve_kk jvW2 yvW2 jzW2 bqW2 "gauge" "NN" gW2 none 2 false (1/10^12) 200 =
      .ok outW2 := by
    rw [solve_kk_eq hg hz he hl hn, hcore]
    norm_num [outW2, bCoeff, jvW2, yvW2]
  exact ⟨hout, solve_kk_roots_increasing_of_separated_brackets jvW2 yvW2 jzW2 bqW2 "gauge" "NN"
    gW2 gW2 none 2 false (1/10^12) 200 1 (1/2) 2 0 "nu=0 (gauge, NN)" outW2
    hg hz he hl hn bqW2_spec hsep hout⟩

/-- Bessel-J instantiation for C2's counterexample: a single zero at 4.6. -/
def jvC2 : ℚ → ℚ → ℚ := fun _ x => x - 23/5
/-- Bessel-Y instantiation for C2's counterexample. -/
def yvC2 : ℚ → ℚ → ℚ := fun _ _ => 1
/-- Zero-table instantiation for C2's counterexample: seeds 4, 5.5, 7, ... -/
def jzC2 : ℕ → ℕ → List ℚ := fun _ k => (List.range k).map (fun i : ℕ => 4 + (3/2) * (i:ℚ))
/-- Root-finder for C2's counterexample: returns the exact zero 4.6 whenever
the supplied interval contains it (contract-conforming). -/
def bqC2 : (ℚ → ℚ) → ℚ → ℚ → ℚ → ℚ → ℕ → Except PyErr ℚ :=
  fun _ a b _ _ _ =>
    if a ≤ 23/5 ∧ 23/5 ≤ b then .ok (23/5)
    else .error (.valueError "f(a) and f(b) must have different signs")
/-- Geometry mapping for C2's counterexample run. -/
def gC2 : List (String × ℚ) := [("Lambda_IR", 1), ("z_v", 1), ("epsilon", 1/2)]

/-- C2 counterexample: the symmetric-expansion bracketer applied to the seeds 4
and 5.5 yields the OVERLAPPING brackets (3.2, 4.8) and (4.4, 6.6), both
containing the sole zero 4.6 of the (instantiated) quantization function; a
root-finder satisfying brentq's contract then returns 4.6 from both brackets,
so the returned sequence [4.6, 4.6] is not strictly increasing — the code
never sorts or deduplicates. -/
theorem solve_kk_roots_not_strictly_increasing :
    BrentqSpec bqC2 (Fsel jvC2 yvC2 0 (1/2) false) (1/10^12) (1/10^12) ∧
    (solve_kk jvC2 yvC2 jzC2 bqC2 "gauge" "NN" gC2 none 2 false (1/10^12) 200).map SolveOut.x
      = .ok [23/5, 23/5] ∧
    ¬ List.Chain' (· < ·) [(23:ℚ)/5, 23/5] := by
  refine ⟨?_, ?_, ?_⟩
  · intro a b k r h
    unfold bqC2 at h
    split_ifs at h with hc
    · simp only [Except.ok.injEq] at h
      subst h
      exact ⟨hc.1, hc.2, 23/5, by norm_num [Fsel, F_ironly, jvC2, MIN_X], hc.1, hc.2,
        by simp only [sub_self, abs_zero]; positivity⟩
  · have hg : validate_geometry gC2 = .ok gC2 :=
      validate_ok_of_missing_nil (by simp [missingKeys, requiredKeys, dlookup, gC2, List.filter])
    have hz : dlookup gC2 "z_v" = some 1 := by simp [dlookup, gC2]
    have he : dlookup gC2 "epsilon" = some (1/2) := by simp [dlookup, gC2]
    have hl : dlookup gC2 "Lambda_IR" = some 1 := by simp [dlookup, gC2]
    have hn : nu_for "gauge" "NN" none = .ok (0, "nu=0 (gauge, NN)") := by simp [nu_for]
    have hcore : solve_core jvC2 yvC2 jzC2 bqC2 0 (1/2) 2 false (1/10^12) 200 =
        .ok ([23/5, 23/5], []) := by
      norm_num [solve_core, Fsel, bracketStage, approx_jv_zeros, seedBrackets, bracket_around,
        F_ironly, npSign, MIN_X, solveAll, solveBracket, jvC2, jzC2, bqC2, max_def]
    rw [solve_kk_eq hg hz he hl hn, hcore]
    rfl
  · norm_num [List.chain'_cons, List.chain'_singleton]

/-- C6 (amended): every bracket the finder produces in solver context — from
`_bracket_around` at the solver's parameters (`rel = 0.2`, `max_expand = 30`)
on any seed the solver can feed it, and from `_scan_for_brackets` with any
positive step — is an ordered positive pair `MIN_X ≤ a < b` such that either
the signs of `F` recorded at `a` and `b` differ, or the bracket STRADDLES a
sample point `m ∈ [a, b)` at which `F` evaluated exactly to zero (the verified
zero is an interior sample, not an endpoint of the returned bracket).  All
solver-feedable seeds are `≥ 1/2`: `_nu_for` only produces orders `≥ -1`, so
asymptotic seeds are `≥ pi/4`, and integer-order seeds come from the positive
Bessel-zero table (its entries exceed 1); seeds at or below zero never arise. -/
theorem bracket_finder_brackets_valid :
    (∀ (species bc : String) (c : Option ℚ) (nu : ℚ) (lbl : String)
        (jz : ℕ → ℕ → List ℚ) (m : ℕ) (F : ℚ → ℚ) (x0 : ℚ) (br : ℚ × ℚ),
      nu_for species bc c = .ok (nu, lbl) →
      (∀ n k z, z ∈ jz n k → 1 ≤ z) →
      x0 ∈ approx_jv_zeros jz nu m →
      bracket_around F x0 (1/5) 30 = some br →
      BracketOK F br) ∧
    (∀ (F : ℚ → ℚ) (x_start step : ℚ) (n : ℕ) (x_max : ℚ) (br : ℚ × ℚ),
      0 < step → br ∈ scan_for_brackets F x_start step n x_max →
      BracketOK F br) := by
  constructor
  · intro species bc c nu lbl jz m F x0 br hn hjz hx0 hb
    exact bracket_around_spec (seeds_ge_half hjz (nu_for_ge_neg_one hn) hx0) hb
  · intro F x_start step n x_max br hstep hbr
    exact scan_for_brackets_ok hstep br hbr

/-- Witness for C6 on concrete runs of both search strategies. -/
theorem bracket_finder_brackets_valid_witness :
    BracketOK (fun x => x - 7/2) (12/5, 18/5) ∧ BracketOK (fun x => x - 3/2) (1, 2) := by
  obtain ⟨h1, h2⟩ := bracket_finder_brackets_valid
  constructor
  · refine h1 "gauge" "NN" none 0 "nu=0 (gauge, NN)" (fun _ k => List.replicate k 3) 5
      (fun x => x - 7/2) 3 (12/5, 18/5) (by simp [nu_for]) ?_ ?_ ?_
    · intro n k z hz
      rw [List.eq_of_mem_replicate hz]
      norm_num
    · norm_num [approx_jv_zeros, List.mem_replicate]
    · norm_num [bracket_around, npSign, MIN_X, max_def]
  · exact h2 (fun x => x - 3/2) 1 1 1 3 (1, 2) (by norm_num)
      (by norm_num [scan_for_brackets, scan_go, npSign, MIN_X, max_def, List.mem_singleton])

/-- Target function of C6's counterexample: evaluates exactly to zero at the
probe point 4 (the sign-zero branch the source handles explicitly). -/
def FzC6 : ℚ → ℚ := fun x => if x = 4 then 0 else 1

/-- C6 counterexample: at seed 5 (a value the zero-table parameter can
supply), the lower probe `a = 4` evaluates exactly to zero and the finder
returns the straddling bracket (3.6, 4.4): its endpoints have EQUAL recorded
signs and neither endpoint evaluates to zero, so the claim's "sign(F(a))
differs from sign(F(b)) or one endpoint of the bracket was verified
numerically zero" is false — the verified zero lies strictly inside. -/
theorem bracket_zero_point_interior_not_endpoint :
    bracket_around FzC6 5 (1/5) 30 = some (18/5, 22/5) ∧
    npSign (FzC6 (18/5)) = npSign (FzC6 (22/5)) ∧
    FzC6 (18/5) ≠ 0 ∧ FzC6 (22/5) ≠ 0 ∧
    (18:ℚ)/5 < 22/5 ∧
    5 ∈ approx_jv_zeros (fun _ k => List.replicate k 5) 0 5 := by
  refine ⟨?_, ?_, ?_, ?_, ?_, ?_⟩
  · norm_num [bracket_around, FzC6, npSign, MIN_X, max_def]
  · norm_num [FzC6, npSign]
  · norm_num [FzC6]
  · norm_num [FzC6]
  · norm_num
  · norm_num [approx_jv_zeros, List.mem_replicate]

/-- C8 (amended): each bracket's refinement invokes the root-finder with
`maxiter = 200`; a first invocation failing with a `ValueError` — the only
class the source's `try/except` catches — triggers exactly one retry with the
ends nudged outward by 1% (`max(a*0.99, _MIN_X)`, `b*1.01`), whose outcome
(success or failure) is final; a first failure of any OTHER class propagates
immediately with no retry (see the counterexample); and the result depends on
the root-finder only through these two `maxiter = 200` invocations. -/
theorem solveBracket_retry_characterization
    (bq bq2 : (ℚ → ℚ) → ℚ → ℚ → ℚ → ℚ → ℕ → Except PyErr ℚ)
    (F : ℚ → ℚ) (tol a b r : ℚ) (msg : String) :
    (bq F a b tol tol 200 = .ok r → solveBracket bq F tol (a, b) = .ok r) ∧
    (bq F a b tol tol 200 = .error (.valueError msg) →
      solveBracket bq F tol (a, b) =
        bq F (max (a * (99/100)) MIN_X) (b * (101/100)) tol tol 200) ∧
    (bq F a b tol tol 200 = .error (.otherError msg) →
      solveBracket bq F tol (a, b) = .error (.otherError msg)) ∧
    (bq2 F a b tol tol 200 = bq F a b tol tol 200 →
      bq2 F (max (a * (99/100)) MIN_X) (b * (101/100)) tol tol 200 =
        bq F (max (a * (99/100)) MIN_X) (b * (101/100)) tol tol 200 →
      solveBracket bq2 F tol (a, b) = solveBracket bq F tol (a, b)) := by
  refine ⟨?_, ?_, ?_, ?_⟩
  · intro h; simp only [solveBracket, h]
  · intro h; simp only [solveBracket, h]
  · intro h; simp only [solveBracket, h]
  · intro h1 h2
    simp only [solveBracket, h1, h2]

/-- Target function for the C8 runs (the retry logic never inspects it). -/
def FW8 : ℚ → ℚ := fun x => x

/-- Root-finder for C8's counterexample: the first invocation (recognized by
its lower end 2) raises a non-ValueError (scipy's brentq raises RuntimeError
on convergence failure); any other invocation would succeed. -/
def bqC8 : (ℚ → ℚ) → ℚ → ℚ → ℚ → ℚ → ℕ → Except PyErr ℚ :=
  fun _ a _ _ _ _ =>
    if a = 2 then .error (.otherError "RuntimeError: Failed to converge after 200 iterations.")
    else .ok 3

/-- C8 counterexample: the first invocation fails with a non-ValueError; the
claim says the solver then retries once with nudged endpoints — and indeed that
retry would return `.ok 3` — but the code propagates the failure without any
retry, because its `except` clause catches only `ValueError`. -/
theorem solveBracket_no_retry_on_non_valueerror :
    bqC8 FW8 2 4 (1/10^12) (1/10^12) 200 =
      .error (.otherError "RuntimeError: Failed to converge after 200 iterations.") ∧
    bqC8 FW8 (max (2 * (99/100)) MIN_X) (4 * (101/100)) (1/10^12) (1/10^12) 200 = .ok 3 ∧
    solveBracket bqC8 FW8 (1/10^12) (2, 4) =
      .error (.otherError "RuntimeError: Failed to converge after 200 iterations.") := by
  refine ⟨?_, ?_, ?_⟩
  · norm_num [bqC8]
  · norm_num [bqC8, MIN_X, max_def]
  · norm_num [solveBracket, bqC8]

/-- Root-finder for C8's witness: first invocation fails with the bracketing
ValueError, the nudged retry succeeds. -/
def bqW8 : (ℚ → ℚ) → ℚ → ℚ → ℚ → ℚ → ℕ → Except PyErr ℚ :=
  fun _ a _ _ _ _ =>
    if a = 2 then .error (.valueError "f(a) and f(b) must have different signs")
    else .ok 5

/-- Witness for C8's amended theorem: a ValueError on the first invocation is
retried once on the nudged interval, and the retry's success is returned. -/
theorem solveBracket_retry_characterization_witness :
    solveBracket bqW8 FW8 (1/10^12) (2, 4) =
      bqW8 FW8 (max (2 * (99/100)) MIN_X) (4 * (101/100)) (1/10^12) (1/10^12) 200 ∧
    bqW8 FW8 (max (2 * (99/100)) MIN_X) (4 * (101/100)) (1/10^12) (1/10^12) 200 = .ok 5 :=
  ⟨(solveBracket_retry_characterization bqW8 bqW8 FW8 (1/10^12) 2 4 5
      "f(a) and f(b) must have different signs").2.1 (by norm_num [bqW8]),
   by norm_num [bqW8, MIN_X, max_def]⟩

/-- Bessel-J instantiation for C4's witness (a function with no zeros). -/
def jvW4 : ℚ → ℚ → ℚ := fun _ _ => 1
/-- Bessel-Y instantiation for C4's witness. -/
def yvW4 : ℚ → ℚ → ℚ := fun _ _ => 1
/-- Zero-table instantiation for C4's witness: the table yields no seeds, and
the fallback scan (started at 0.5 with the small cutoff 0.4) finds no sign
change either, so the bracket stage under-delivers. -/
def jzW4 : ℕ → ℕ → List ℚ := fun _ _ => []
/-- Root-finder instantiation for C4's witness; never reached (no brackets). -/
def bqW4 : (ℚ → ℚ) → ℚ → ℚ → ℚ → ℚ → ℕ → Except PyErr ℚ :=
  fun _ _ _ _ _ _ => .error (.valueError "unused")
/-- Geometry mapping for C4's witness run. -/
def gW4 : List (String × ℚ) := [("Lambda_IR", 2), ("z_v", 1), ("epsilon", 1/2)]

/-- Witness for C4: a run that finds 0 of the 1 requested brackets returns
`.ok` with an empty spectrum and the shortfall warning — no exception. -/
theorem solve_kk_shortfall_warns_and_truncates_witness :
    ∃ out : SolveOut,
      solve_kk jvW4 yvW4 jzW4 bqW4 "gauge" "NN" gW4 none 1 false (1/10^12) (2/5) = .ok out ∧
      out.masses.length = (bracketStage (Fsel jvW4 yvW4 0 (1/2) false) jzW4 0 1 (2/5)).length ∧
      out.masses.length < 1 ∧
      out.warnings =
        [shortfallMsg (bracketStage (Fsel jvW4 yvW4 0 (1/2) false) jzW4 0 1 (2/5)).length (2/5)] := by
  have hstage : bracketStage (Fsel jvW4 yvW4 0 (1/2) false) jzW4 0 1 (2/5) = [] := by
    norm_num [bracketStage, approx_jv_zeros, seedBrackets, scan_for_brackets, scan_go,
      Fsel, F_ironly, npSign, MIN_X, jvW4, jzW4, max_def, pi_float]
  exact solve_kk_shortfall_warns_and_truncates jvW4 yvW4 jzW4 bqW4 "gauge" "NN" gW4 gW4 none 1
    false (1/10^12) (2/5) 1 (1/2) 2 0 "nu=0 (gauge, NN)" []
    (validate_ok_of_missing_nil (by simp [missingKeys, requiredKeys, dlookup, gW4, List.filter]))
    (by simp [dlookup, gW4]) (by simp [dlookup, gW4]) (by simp [dlookup, gW4])
    (by simp [nu_for]) (by rw [hstage]; norm_num) (by rw [hstage]; rfl)

/-- Geometry for C9's witness, `Lambda_IR = 5`. -/
def gW9a : List (String × ℚ) := [("Lambda_IR", 5), ("z_v", 1), ("epsilon", 1/2)]
/-- Geometry for C9's witness, identical except `Lambda_IR = 10` (doubled). -/
def gW9b : List (String × ℚ) := [("Lambda_IR", 10), ("z_v", 1), ("epsilon", 1/2)]

/-- Witness for C9 on two concrete runs differing only in `Lambda_IR`. -/
theorem solve_kk_mass_linear_in_Lambda_IR_witness :
    (∀ out, solve_kk jvW1 yvW1 jzW1 bqW1 "gauge" "NN" gW9a none 1 false (1/10^12) 200 = .ok out →
      out.masses = out.x.map (fun x => x * 5)) ∧
    ((solve_kk jvW1 yvW1 jzW1 bqW1 "gauge" "NN" gW9a none 1 false (1/10^12) 200).map SolveOut.x =
      (solve_kk jvW1 yvW1 jzW1 bqW1 "gauge" "NN" gW9b none 1 false (1/10^12) 200).map SolveOut.x) ∧
    (∀ out1 out2,
      solve_kk jvW1 yvW1 jzW1 bqW1 "gauge" "NN" gW9a none 1 false (1/10^12) 200 = .ok out1 →
      solve_kk jvW1 yvW1 jzW1 bqW1 "gauge" "NN" gW9b none 1 false (1/10^12) 200 = .ok out2 →
      out1.x = out2.x ∧
      out1.masses = out1.x.map (fun x => x * 5) ∧
      out2.masses = out2.x.map (fun x => x * 10) ∧
      out2.masses.map (fun m => m * 5) = out1.masses.map (fun m => m * 10) ∧
      ((10:ℚ) = 2 * 5 → out2.masses = out1.masses.map (fun m => 2 * m))) :=
  solve_kk_mass_linear_in_Lambda_IR jvW1 yvW1 jzW1 bqW1 "gauge" "NN" gW9a gW9b none 1 false
    (1/10^12) 200 5 10 0 "nu=0 (gauge, NN)"
    (by simp [missingKeys, requiredKeys, dlookup, gW9a, List.filter])
    (by simp [missingKeys, requiredKeys, dlookup, gW9b, List.filter])
    (by simp [dlookup, gW9a]) (by simp [dlookup, gW9b])
    (by simp [dlookup, gW9a, gW9b]) (by simp [dlookup, gW9a, gW9b]) (by simp [nu_for])

/-- Geometry for C10's witness: same `Lambda_IR` and `epsilon` as `gW1` but a
different `z_v` and an extra entry. -/
def gW10 : List (String × ℚ) := [("Lambda_IR", 2), ("z_v", 7), ("epsilon", 1/2), ("extra", 9)]

/-- Witness for C10 on two concrete runs whose geometries differ in `z_v` and
in an extra entry. -/
theorem solve_kk_independent_of_z_v_witness :
    (solve_kk jvW1 yvW1 jzW1 bqW1 "gauge" "NN" gW1 none 1 false (1/10^12) 200).map
        (fun o => (o.masses, o.x, o.b, o.nu)) =
      (solve_kk jvW1 yvW1 jzW1 bqW1 "gauge" "NN" gW10 none 1 false (1/10^12) 200).map
        (fun o => (o.masses, o.x, o.b, o.nu)) :=
  solve_kk_independent_of_z_v jvW1 yvW1 jzW1 bqW1 "gauge" "NN" gW1 gW10 none 1 false
    (1/10^12) 200
    (by simp [missingKeys, requiredKeys, dlookup, gW1, List.filter])
    (by simp [missingKeys, requiredKeys, dlookup, gW10, List.filter])
    (by simp [dlookup, gW1, gW10]) (by simp [dlookup, gW1, gW10])
